import Mathlib

/-!
# The `bench` native-addon stubs: `hello` (C and C++) and `add` (C++)

Sources embedded here:

* `src/bench/src/hello/addon.c`   : `Method`, `DECLARE_NAPI_METHOD`, `Init`
* `src/bench/src/hello/addon.cpp` : `Method`, `Init`
* `src/bench/src/add/addon.cpp`   : `Add`, `Init`

The three files are glue code: every statement is a call into the host's binding layer
(`node_api.h` for the C file, `napi.h` for the two C++ files).  Neither header is among the
sources, so the binding layer is modelled here, once, in the section "Binding layer"; the
stubs themselves are then translated statement by statement on top of it.

Conventions of the embedding:

* A call of a native function has one of three outcomes (`Outcome`): it returns a value, the
  process is aborted by a failed `assert`, or the C++ wrapper layer raises the failure of a
  binding call on its own (the stub's remaining statements are skipped).
* `assert` is the one of `<assert.h>` with `NDEBUG` not defined (the sources do not define it).
* The objects of the host live in a heap (`Heap`), passed in and out explicitly; it is the
  only state that survives a call.
* The outcome of the binding calls that can fail for reasons outside the stub is a field of
  the environment `napi_env`.
* A `double` is an IEEE-754 binary64 datum given by its three bit fields (`F64`).
-/

namespace Bench

/-! ## Double-precision numbers -/

/-- Bit-length loop: the number of binary digits of `n`, with `fuel` bounding the depth. -/
def bitLengthAux : Nat → Nat → Nat
  | 0, _ => 0
  | fuel + 1, n => if n = 0 then 0 else bitLengthAux fuel (n / 2) + 1

/-- Number of binary digits of `n` (0 for 0). -/
def bitLength (n : Nat) : Nat := bitLengthAux n n

/-- A C/C++ `double`: an IEEE-754 binary64 datum, as its sign bit, its 11-bit biased exponent
field and its 52-bit fraction field. -/
structure F64 where
  sign : Bool
  exponent : Nat
  fraction : Nat
  deriving DecidableEq, Repr

namespace F64

/-- A finite datum: both fields fit their widths and the exponent field is not all ones
(neither an infinity nor a NaN). -/
def finite (x : F64) : Prop := x.exponent < 2047 ∧ x.fraction < 2 ^ 52

instance (x : F64) : Decidable x.finite := by unfold finite; infer_instance

/-- A NaN: exponent field all ones, fraction not zero. -/
def isNaN (x : F64) : Bool := decide (2047 ≤ x.exponent) && decide (x.fraction ≠ 0)

/-- An infinity: exponent field all ones, fraction zero. -/
def isInf (x : F64) : Bool := decide (2047 ≤ x.exponent) && decide (x.fraction = 0)

/-- The datum with the given 64-bit pattern. -/
def ofBits (bits : Nat) : F64 :=
  ⟨decide (bits / 2 ^ 63 % 2 = 1), bits / 2 ^ 52 % 2048, bits % 2 ^ 52⟩

/-- The quiet NaN produced by invalid operations. -/
def qNaN : F64 := ⟨false, 2047, 2 ^ 51⟩

/-- The infinity of the given sign. -/
def infinity (sign : Bool) : F64 := ⟨sign, 2047, 0⟩

/-- The zero of the given sign. -/
def zero (sign : Bool) : F64 := ⟨sign, 0, 0⟩

/-- Magnitude of a finite datum in units of `2^-1074` (the smallest subnormal): an integer.
Subnormals (exponent field 0) have no hidden bit. -/
def magnitude (x : F64) : Nat :=
  if x.exponent = 0 then x.fraction else (2 ^ 52 + x.fraction) * 2 ^ (x.exponent - 1)

/-- Signed value of a finite datum in units of `2^-1074`. -/
def scaled (x : F64) : Int :=
  if x.sign then -(x.magnitude : Int) else (x.magnitude : Int)

/-- The rational number a finite datum denotes. -/
def toRat (x : F64) : ℚ := (x.scaled : ℚ) / 2 ^ 1074

/-- Round the magnitude `n` (units of `2^-1074`) to the nearest datum, ties to the even
significand, overflowing to infinity. -/
def roundNearestEven (sign : Bool) (n : Nat) : F64 :=
  if n < 2 ^ 53 then
    ⟨sign, n / 2 ^ 52, n % 2 ^ 52⟩
  else
    let shift := bitLength n - 53
    let q := n / 2 ^ shift
    let r := n % 2 ^ shift
    let half := 2 ^ (shift - 1)
    let q1 := if half < r ∨ (r = half ∧ q % 2 = 1) then q + 1 else q
    let e := shift + q1 / 2 ^ 52
    if 2047 ≤ e then infinity sign else ⟨sign, e, q1 % 2 ^ 52⟩

/-- The operator `+` on `double`: IEEE-754 binary64 addition in the default rounding mode
(round to nearest, ties to even). -/
def add (a b : F64) : F64 :=
  if a.isNaN || b.isNaN then qNaN
  else if a.isInf then
    if b.isInf && (a.sign != b.sign) then qNaN else infinity a.sign
  else if b.isInf then infinity b.sign
  else
    let s := a.scaled + b.scaled
    if s = 0 then zero (a.sign && b.sign)
    else roundNearestEven (decide (s < 0)) s.natAbs

instance : Add F64 := ⟨F64.add⟩

end F64

/-! ## Binding layer -/

/-- Modelled from the spec: the status type `napi_status` of `node_api.h` (header not among
the sources).  The stubs only ever compare a status with `napi_ok`, so every other status is
kept as an uninterpreted code. -/
inductive napi_status
  | napi_ok
  | failure (code : Nat)
  deriving DecidableEq, Repr

export napi_status (napi_ok)

/-- The native functions the three stubs register with the host. -/
inductive Callback
  | hello_c_Method
  | hello_cpp_Method
  | add_Add
  deriving DecidableEq, Repr

/-- Reference to a host object (what a `napi_value` or `Napi::Object` holding an object
stands for). -/
abbrev ObjectRef := Nat

/-- Modelled from the spec: the values of the host that cross the binding boundary
(`napi_value`, `Napi::Value`; declared in the absent headers): the numbers and strings of
the data model, the registered functions, objects by reference, and `undefined`. -/
inductive JsValue
  | undefined
  | number (d : F64)
  | string (s : String)
  | function (cb : Callback)
  | object (ref : ObjectRef)
  deriving DecidableEq, Repr

/-- Modelled from the spec: `napi_property_attributes` of `node_api.h` (header not among the
sources), as the three attribute bits of a property. -/
structure napi_property_attributes where
  writable : Bool
  enumerable : Bool
  configurable : Bool
  deriving DecidableEq, Repr

/-- Modelled from the spec: the constant `napi_default` of `node_api.h` (header not among the
sources), which `DECLARE_NAPI_METHOD` puts in the descriptor.  The binding layer documents
it as "no explicit attributes are set on the property; by default, a property is read only,
not enumerable and not configurable". -/
def napi_default : napi_property_attributes := ⟨false, false, false⟩

/-- Modelled from the spec: the attributes of a property that an assignment creates, which
is what `Napi::Object::Set` of `napi.h` (header not among the sources) performs: writable,
enumerable and configurable. -/
def assigned_attributes : napi_property_attributes := ⟨true, true, true⟩

/-- One own data property of a host object. -/
structure Property where
  key : String
  value : JsValue
  attributes : napi_property_attributes
  deriving DecidableEq, Repr

/-- An ordinary host object: whether properties can still be added to it, and its own data
properties in creation order.  (Accessor properties, inherited properties and proxies are
outside the model.) -/
structure JsObject where
  extensible : Bool
  props : List Property
  deriving DecidableEq, Repr

/-- The state that outlives a call: every host object, by reference. -/
abbrev Heap := ObjectRef → JsObject

/-- Outcome of a call of a native function: it returns a value, the process is aborted by a
failed `assert`, or a wrapper of `napi.h` raises the failure of a binding call. -/
inductive Outcome (α : Type)
  | returned (v : α)
  | aborted
  | raised
  deriving DecidableEq, Repr

namespace Outcome

/-- Sequencing of the statements of a C++ function body: a raised failure (or an abort)
skips the statements that follow. -/
def bind {α β : Type} (x : Outcome α) (f : α → Outcome β) : Outcome β :=
  match x with
  | returned v => f v
  | aborted => aborted
  | raised => raised

/-- The value part of an outcome. -/
def map {α β : Type} (f : α → β) (x : Outcome α) : Outcome β :=
  x.bind fun v => returned (f v)

/-- The call came back to its caller with a value. -/
def isReturned {α : Type} : Outcome α → Bool
  | returned _ => true
  | _ => false

end Outcome

export Outcome (returned aborted raised)

/-- Modelled from the spec: the environment handle `napi_env` (declared in the absent
headers).  It carries what the binding layer decides on its own: the status reported by the
calls that create a string, create a function, define properties or set a property, and the
result of converting a value that is not a number to a `double` (`none`: the conversion is
reported as failed). -/
structure napi_env where
  create_string_utf8 : napi_status
  create_function : napi_status
  define_properties : napi_status
  set_property : napi_status
  get_value_double : JsValue → Option F64

/-- Modelled from the spec: `napi_property_descriptor` of `node_api.h` (header not among the
sources), with its eight fields in declaration order. -/
structure napi_property_descriptor where
  utf8name : String
  name : Option JsValue
  method : Option Callback
  getter : Option Callback
  setter : Option Callback
  value : Option JsValue
  attributes : napi_property_attributes
  data : Nat

/-- Own keys of an object, in order. -/
def keys (props : List Property) : List String := props.map Property.key

/-- The property stored under a key, if any. -/
def lookup (props : List Property) (k : String) : Option Property :=
  props.find? fun p => p.key == k

/-- Define an own property: an existing property of that key is replaced as a whole, a new
one is appended. -/
def defineOwnProperty : List Property → Property → List Property
  | [], p => [p]
  | q :: qs, p => if q.key = p.key then p :: qs else q :: defineOwnProperty qs p

/-- Assign to a property, as the host does for a native caller (a store that does not go
through is dropped silently, it is not an error).  A writable property of that key gets the
value and keeps its attributes; a read-only one stays as it is; without a property of that
key a new one is appended with the attributes of an assignment when the object is
extensible (`ext`), and nothing happens when it is not. -/
def setProperty (ext : Bool) : List Property → String → JsValue → List Property
  | [], k, v => if ext then [⟨k, v, assigned_attributes⟩] else []
  | q :: qs, k, v =>
      if q.key = k then
        (if q.attributes.writable then ⟨k, v, q.attributes⟩ :: qs else q :: qs)
      else q :: setProperty ext qs k v

/-- The data property a descriptor declares: a method descriptor declares a function. -/
def napi_property_descriptor.toProperty (d : napi_property_descriptor) : Property :=
  ⟨d.utf8name,
   match d.method with
   | some cb => JsValue.function cb
   | none => d.value.getD JsValue.undefined,
   d.attributes⟩

/-- The bytes of a C string literal as laid out in memory: its UTF-8 bytes and the
terminating NUL. -/
def cBytes (s : String) : List UInt8 := s.toUTF8.data.toList ++ [0]

/-- Length of a C string: the bytes before the first NUL. -/
def strlen (s : String) : Nat :=
  (String.mk (s.data.takeWhile fun c => c != Char.ofNat 0)).utf8ByteSize

/-- Modelled from the spec: `napi_create_string_utf8(env, str, length, &result)` of
`node_api.h` (header not among the sources).  It reads the first `length` bytes of `str`;
on success the out-parameter holds the host string made of them. -/
def napi_create_string_utf8 (env : napi_env) (str : String) (length : Nat) :
    napi_status × Option JsValue :=
  match env.create_string_utf8 with
  | napi_ok => (napi_ok, some (JsValue.string (str.extract ⟨0⟩ ⟨length⟩)))
  | s => (s, none)

/-- Modelled from the spec: `napi_define_properties(env, object, count, props)` of
`node_api.h` (header not among the sources).  On success every descriptor has been defined
on the object, in order; on failure the object is as before.  (The call reports a failure
when the object does not admit a definition; which objects those are is left to the status
of the environment.) -/
def napi_define_properties (env : napi_env) (heap : Heap) (object : ObjectRef)
    (props : List napi_property_descriptor) : napi_status × Heap :=
  match env.define_properties with
  | napi_ok =>
      (napi_ok,
       Function.update heap object
        ⟨(heap object).extensible,
         props.foldl (fun ps d => defineOwnProperty ps d.toProperty) (heap object).props⟩)
  | s => (s, heap)

/-- The arguments of a call as the C stub receives them (`napi_callback_info`). -/
abbrev napi_callback_info := List JsValue

/-- Modelled from the spec: `Napi::CallbackInfo` of `napi.h` (header not among the sources):
the environment and the arguments of a call. -/
structure CallbackInfo where
  env : napi_env
  args : List JsValue

/-- The accessor `info.Env()`. -/
def CallbackInfo.Env (info : CallbackInfo) : napi_env := info.env

/-- The accessor `info[i]`: the argument at the index, `undefined` past the last one. -/
def CallbackInfo.get (info : CallbackInfo) (i : Nat) : JsValue :=
  info.args.getD i JsValue.undefined

/-- Modelled from the spec: `Napi::String::New(env, const char*)` of `napi.h` (header not
among the sources): the host string of the whole C string; a failed creation is raised by
the wrapper. -/
def Napi_String_New (env : napi_env) (val : String) : Outcome JsValue :=
  match napi_create_string_utf8 env val (strlen val) with
  | (napi_ok, some v) => returned v
  | _ => raised

/-- Modelled from the spec: `Napi::Function::New(env, cb)` of `napi.h` (header not among the
sources): the host function that calls `cb`; a failed creation is raised by the wrapper. -/
def Napi_Function_New (env : napi_env) (cb : Callback) : Outcome JsValue :=
  match env.create_function with
  | napi_ok => returned (JsValue.function cb)
  | _ => raised

/-- Modelled from the spec: `Napi::Object::Set(key, value)` of `napi.h` (header not among the
sources): an assignment to the property named by the string `key`; a failed call is raised
by the wrapper.  A store that a read-only property or a non-extensible object turns down is
not a failed call: the call reports success and the object is unchanged. -/
def Napi_Object_Set (env : napi_env) (heap : Heap) (object : ObjectRef) (key value : JsValue) :
    Outcome Heap :=
  match env.set_property, key with
  | napi_ok, JsValue.string k =>
      returned (Function.update heap object
        ⟨(heap object).extensible,
         setProperty (heap object).extensible (heap object).props k value⟩)
  | _, _ => raised

/-- Modelled from the spec: `value.As<Napi::Number>().DoubleValue()` of `napi.h` (header not
among the sources): the unchecked cast followed by the conversion to `double`.  A number
yields its `double`; for any other value the binding layer decides. -/
def Napi_Number_DoubleValue (env : napi_env) (v : JsValue) : Outcome F64 :=
  match v with
  | JsValue.number d => returned d
  | other =>
      match env.get_value_double other with
      | some d => returned d
      | none => raised

/-- Modelled from the spec: `Napi::Number::New(env, double)` of `napi.h` (header not among
the sources): the host number holding the `double`. -/
def Napi_Number_New (_env : napi_env) (val : F64) : Outcome JsValue :=
  returned (JsValue.number val)

/-! ## `hello/addon.c` -/

namespace HelloC

/-- The string argument of the call `napi_create_string_utf8(env, "world", 5, &world)` in
`Method`: the literal `"world"`. -/
def Method_str : String := "world"

/-- The length argument of the call `napi_create_string_utf8(env, "world", 5, &world)` in
`Method`. -/
def Method_length : Nat := 5

/-- The function `Method` of `hello/addon.c`: the `assert` aborts the process when the
status is not `napi_ok`, otherwise `world` is returned. -/
def Method (env : napi_env) (heap : Heap) (_info : napi_callback_info) :
    Outcome (JsValue × Heap) :=
  match napi_create_string_utf8 env Method_str Method_length with
  | (napi_ok, some world) => returned (world, heap)
  | _ => aborted

/-- The initializer `DECLARE_NAPI_METHOD(name, func)` of `hello/addon.c`:
`{name, 0, func, 0, 0, 0, napi_default, 0}`. -/
def DECLARE_NAPI_METHOD (name : String) (func : Callback) : napi_property_descriptor :=
  ⟨name, none, some func, none, none, none, napi_default, 0⟩

/-- The function `Init` of `hello/addon.c`: one descriptor is defined on `exports`
(`count` is 1); the `assert` aborts the process when the status is not `napi_ok`, otherwise
`exports` is returned. -/
def Init (env : napi_env) (heap : Heap) (exports : ObjectRef) : Outcome (ObjectRef × Heap) :=
  let desc := DECLARE_NAPI_METHOD "hello" Callback.hello_c_Method
  match napi_define_properties env heap exports [desc] with
  | (napi_ok, heap1) => returned (exports, heap1)
  | _ => aborted

end HelloC

/-! ## `hello/addon.cpp` -/

namespace HelloCpp

/-- The function `Method` of `hello/addon.cpp`. -/
def Method (heap : Heap) (info : CallbackInfo) : Outcome (JsValue × Heap) :=
  let env := info.Env
  (Napi_String_New env "world").bind fun world => returned (world, heap)

/-- The function `Init` of `hello/addon.cpp`.  C++ leaves the order in which the two
arguments of `Set` are evaluated open; a raised failure carries no payload, so the outcome
is the same in either order. -/
def Init (env : napi_env) (heap : Heap) (exports : ObjectRef) : Outcome (ObjectRef × Heap) :=
  (Napi_String_New env "hello").bind fun key =>
  (Napi_Function_New env Callback.hello_cpp_Method).bind fun fn =>
  (Napi_Object_Set env heap exports key fn).bind fun heap1 =>
  returned (exports, heap1)

end HelloCpp

/-! ## `add/addon.cpp` -/

namespace AddCpp

/-- The function `Add` of `add/addon.cpp`. -/
def Add (heap : Heap) (info : CallbackInfo) : Outcome (JsValue × Heap) :=
  let env := info.Env
  (Napi_Number_DoubleValue env (info.get 0)).bind fun arg0 =>
  (Napi_Number_DoubleValue env (info.get 1)).bind fun arg1 =>
  (Napi_Number_New env (arg0 + arg1)).bind fun num =>
  returned (num, heap)

/-- The function `Init` of `add/addon.cpp` (the two arguments of `Set` as in the C++ hello
stub). -/
def Init (env : napi_env) (heap : Heap) (exports : ObjectRef) : Outcome (ObjectRef × Heap) :=
  (Napi_String_New env "add").bind fun key =>
  (Napi_Function_New env Callback.add_Add).bind fun fn =>
  (Napi_Object_Set env heap exports key fn).bind fun heap1 =>
  returned (exports, heap1)

end AddCpp

/-! ## Calls from the host -/

/-- The host calls a registered function with an argument list. -/
def invoke (env : napi_env) (heap : Heap) (cb : Callback) (args : List JsValue) :
    Outcome (JsValue × Heap) :=
  match cb with
  | Callback.hello_c_Method => HelloC.Method env heap args
  | Callback.hello_cpp_Method => HelloCpp.Method heap ⟨env, args⟩
  | Callback.add_Add => AddCpp.Add heap ⟨env, args⟩

/-- An environment in which every binding call succeeds (non-numbers convert to NaN). -/
def okEnv : napi_env := ⟨napi_ok, napi_ok, napi_ok, napi_ok, fun _ => some F64.qNaN⟩

/-- An environment in which every binding call that can fail does. -/
def failEnv : napi_env :=
  ⟨napi_status.failure 9, napi_status.failure 9, napi_status.failure 9, napi_status.failure 9,
   fun _ => none⟩

/-- The heap in which no object has a property. -/
def emptyHeap : Heap := fun _ => ⟨true, []⟩

/-- The heap after the host has made the given calls of registered functions, in order:
a call that raises leaves the heap as it was, a call that aborts ends the process
(`none`). -/
def runCalls (env : napi_env) : Heap → List (Callback × List JsValue) → Option Heap
  | heap, [] => some heap
  | heap, (cb, args) :: rest =>
      match invoke env heap cb args with
      | returned (_, heap1) => runCalls env heap1 rest
      | raised => runCalls env heap rest
      | aborted => none

/-- A property has been defined on an object, in the words of the amended claims C4 and C9:
afterwards the key of `p` is bound to `p` (value and attributes), every other key is bound
as before, and the keys are those of before, with the key of `p` added at the end when it
was not among them. -/
def Defines (before after : JsObject) (p : Property) : Prop :=
  after.extensible = before.extensible ∧
  lookup after.props p.key = some p ∧
  (∀ k, k ≠ p.key → lookup after.props k = lookup before.props k) ∧
  keys after.props
    = (if p.key ∈ keys before.props then keys before.props else keys before.props ++ [p.key])

/-- A value has been assigned to a key of an object, in the words of the amended claims C4
and C9: every other key is bound as before; when the object had no property of that key,
one is added at the end, bound to the value with the attributes of an assignment, if the
object is extensible, and the object is unchanged if it is not; when it had a writable
property of that key, the key is bound to the value, with the attributes and the keys as
before; when it had a read-only one, the object is unchanged. -/
def Assigns (before after : JsObject) (key : String) (v : JsValue) : Prop :=
  after.extensible = before.extensible ∧
  (∀ k, k ≠ key → lookup after.props k = lookup before.props k) ∧
  (lookup before.props key = none → before.extensible = true →
    after.props = before.props ++ [⟨key, v, assigned_attributes⟩] ∧
    lookup after.props key = some ⟨key, v, assigned_attributes⟩) ∧
  (lookup before.props key = none → before.extensible = false → after = before) ∧
  (∀ p, lookup before.props key = some p → p.attributes.writable = true →
    lookup after.props key = some ⟨key, v, p.attributes⟩ ∧
    keys after.props = keys before.props) ∧
  (∀ p, lookup before.props key = some p → p.attributes.writable = false → after = before)

/-- A heap whose objects are extensible and have one property, "hello", bound to a string
by an assignment. -/
def heapWithHello : Heap :=
  fun _ => ⟨true, [⟨"hello", JsValue.string "old", assigned_attributes⟩]⟩

/-- A heap whose objects are extensible and have one property, "hello", bound to a string,
read-only, enumerable and configurable. -/
def heapReadOnlyHello : Heap :=
  fun _ => ⟨true, [⟨"hello", JsValue.string "old", ⟨false, true, true⟩⟩]⟩

/-- A heap whose objects have no property and are not extensible. -/
def heapNotExtensible : Heap := fun _ => ⟨false, []⟩

/-- Correct rounding, in the words of claim C2: `r` is the correctly rounded IEEE-754
binary64 value of the exact real number `exact` in round-to-nearest, ties-to-even.  Below the
overflow threshold `2^1024 - 2^970` (half an ulp above the largest finite double), `r` is
finite, no finite double is nearer to `exact` than `r`, and when another value is as near,
`r` is the one with the even significand; from the threshold on, `r` is the infinity with
the sign of `exact`. -/
def F64.CorrectlyRounded (exact : ℚ) (r : F64) : Prop :=
  (|exact| < 2 ^ 1024 - 2 ^ 970 →
    r.finite ∧
    (∀ x : F64, x.finite → |r.toRat - exact| ≤ |x.toRat - exact|) ∧
    (∀ x : F64, x.finite → x.toRat ≠ r.toRat → |x.toRat - exact| = |r.toRat - exact| →
      r.fraction % 2 = 0)) ∧
  (2 ^ 1024 - 2 ^ 970 ≤ |exact| → r = F64.infinity (decide (exact < 0)))

/-! # Theorems -/

/-! ## Sequencing and the binding layer -/

@[simp] theorem Outcome.bind_returned {α β : Type} (v : α) (f : α → Outcome β) :
    (returned v).bind f = f v := rfl

@[simp] theorem Outcome.bind_aborted {α β : Type} (f : α → Outcome β) :
    (aborted : Outcome α).bind f = aborted := rfl

@[simp] theorem Outcome.bind_raised {α β : Type} (f : α → Outcome β) :
    (raised : Outcome α).bind f = raised := rfl

theorem Outcome.bind_eq_aborted {α β : Type} (x : Outcome α) (f : α → Outcome β) :
    x.bind f = aborted ↔ x = aborted ∨ ∃ v, x = returned v ∧ f v = aborted := by
  cases x <;> simp

theorem Outcome.bind_eq_raised {α β : Type} (x : Outcome α) (f : α → Outcome β) :
    x.bind f = raised ↔ x = raised ∨ ∃ v, x = returned v ∧ f v = raised := by
  cases x <;> simp

theorem Outcome.bind_eq_returned {α β : Type} (x : Outcome α) (f : α → Outcome β) (w : β) :
    x.bind f = returned w ↔ ∃ v, x = returned v ∧ f v = returned w := by
  cases x <;> simp

theorem status_cases (s : napi_status) : s = napi_ok ∨ ∃ code, s = napi_status.failure code := by
  cases s with
  | napi_ok => exact Or.inl rfl
  | failure code => exact Or.inr ⟨code, rfl⟩

theorem Napi_String_New_ok (env : napi_env) (val : String)
    (h : env.create_string_utf8 = napi_ok) :
    Napi_String_New env val = returned (JsValue.string (val.extract ⟨0⟩ ⟨strlen val⟩)) := by
  simp [Napi_String_New, napi_create_string_utf8, h]

theorem Napi_String_New_failure (env : napi_env) (val : String)
    (h : env.create_string_utf8 ≠ napi_ok) : Napi_String_New env val = raised := by
  rcases status_cases env.create_string_utf8 with h1 | ⟨code, h1⟩
  · exact absurd h1 h
  · simp [Napi_String_New, napi_create_string_utf8, h1]

theorem Napi_Function_New_ok (env : napi_env) (cb : Callback)
    (h : env.create_function = napi_ok) :
    Napi_Function_New env cb = returned (JsValue.function cb) := by
  simp [Napi_Function_New, h]

theorem Napi_Function_New_failure (env : napi_env) (cb : Callback)
    (h : env.create_function ≠ napi_ok) : Napi_Function_New env cb = raised := by
  rcases status_cases env.create_function with h1 | ⟨code, h1⟩
  · exact absurd h1 h
  · simp [Napi_Function_New, h1]

theorem Napi_Object_Set_ok (env : napi_env) (heap : Heap) (object : ObjectRef) (k : String)
    (value : JsValue) (h : env.set_property = napi_ok) :
    Napi_Object_Set env heap object (JsValue.string k) value
      = returned (Function.update heap object
          ⟨(heap object).extensible,
           setProperty (heap object).extensible (heap object).props k value⟩) := by
  simp [Napi_Object_Set, h]

theorem Napi_Object_Set_failure (env : napi_env) (heap : Heap) (object : ObjectRef)
    (key value : JsValue) (h : env.set_property ≠ napi_ok) :
    Napi_Object_Set env heap object key value = raised := by
  rcases status_cases env.set_property with h1 | ⟨code, h1⟩
  · exact absurd h1 h
  · simp [Napi_Object_Set, h1]

theorem Napi_Object_Set_ne_aborted (env : napi_env) (heap : Heap) (object : ObjectRef)
    (key value : JsValue) : Napi_Object_Set env heap object key value ≠ aborted := by
  unfold Napi_Object_Set
  split <;> simp

theorem Napi_String_New_ne_aborted (env : napi_env) (val : String) :
    Napi_String_New env val ≠ aborted := by
  unfold Napi_String_New
  split <;> simp

theorem Napi_Function_New_ne_aborted (env : napi_env) (cb : Callback) :
    Napi_Function_New env cb ≠ aborted := by
  unfold Napi_Function_New
  split <;> simp

theorem Napi_Number_DoubleValue_ne_aborted (env : napi_env) (v : JsValue) :
    Napi_Number_DoubleValue env v ≠ aborted := by
  unfold Napi_Number_DoubleValue
  cases v <;> simp <;> split <;> simp

theorem extract_hello : "hello".extract 0 ⟨strlen "hello"⟩ = "hello" := by decide

theorem extract_add : "add".extract 0 ⟨strlen "add"⟩ = "add" := by decide

theorem extract_world : "world".extract 0 ⟨strlen "world"⟩ = "world" := by decide

theorem HelloC_Method_ok (env : napi_env) (heap : Heap) (args : List JsValue)
    (h : env.create_string_utf8 = napi_ok) :
    HelloC.Method env heap args = returned (JsValue.string "world", heap) := by
  simp only [HelloC.Method, napi_create_string_utf8, h]
  rfl

theorem HelloC_Method_failure (env : napi_env) (heap : Heap) (args : List JsValue)
    (h : env.create_string_utf8 ≠ napi_ok) : HelloC.Method env heap args = aborted := by
  rcases status_cases env.create_string_utf8 with h1 | ⟨code, h1⟩
  · exact absurd h1 h
  · simp [HelloC.Method, napi_create_string_utf8, h1]

theorem HelloCpp_Method_ok (env : napi_env) (heap : Heap) (args : List JsValue)
    (h : env.create_string_utf8 = napi_ok) :
    HelloCpp.Method heap ⟨env, args⟩ = returned (JsValue.string "world", heap) := by
  simp [HelloCpp.Method, CallbackInfo.Env, Napi_String_New_ok env _ h, extract_world]

theorem HelloCpp_Method_failure (env : napi_env) (heap : Heap) (args : List JsValue)
    (h : env.create_string_utf8 ≠ napi_ok) : HelloCpp.Method heap ⟨env, args⟩ = raised := by
  simp [HelloCpp.Method, CallbackInfo.Env, Napi_String_New_failure env _ h]

theorem HelloC_Init_ok (env : napi_env) (heap : Heap) (exports : ObjectRef)
    (h : env.define_properties = napi_ok) :
    HelloC.Init env heap exports = returned (exports, Function.update heap exports
      ⟨(heap exports).extensible, defineOwnProperty (heap exports).props
        ⟨"hello", JsValue.function Callback.hello_c_Method, napi_default⟩⟩) := by
  simp [HelloC.Init, napi_define_properties, h, HelloC.DECLARE_NAPI_METHOD,
    napi_property_descriptor.toProperty]

theorem HelloC_Init_failure (env : napi_env) (heap : Heap) (exports : ObjectRef)
    (h : env.define_properties ≠ napi_ok) : HelloC.Init env heap exports = aborted := by
  rcases status_cases env.define_properties with h1 | ⟨code, h1⟩
  · exact absurd h1 h
  · simp [HelloC.Init, napi_define_properties, h1]

theorem HelloCpp_Init_ok (env : napi_env) (heap : Heap) (exports : ObjectRef)
    (hs : env.create_string_utf8 = napi_ok) (hf : env.create_function = napi_ok)
    (hp : env.set_property = napi_ok) :
    HelloCpp.Init env heap exports = returned (exports, Function.update heap exports
      ⟨(heap exports).extensible, setProperty (heap exports).extensible (heap exports).props
        "hello" (JsValue.function Callback.hello_cpp_Method)⟩) := by
  simp [HelloCpp.Init, Napi_String_New_ok env _ hs, Napi_Function_New_ok env _ hf,
    Napi_Object_Set_ok env _ _ _ _ hp, extract_hello]

theorem AddCpp_Init_ok (env : napi_env) (heap : Heap) (exports : ObjectRef)
    (hs : env.create_string_utf8 = napi_ok) (hf : env.create_function = napi_ok)
    (hp : env.set_property = napi_ok) :
    AddCpp.Init env heap exports = returned (exports, Function.update heap exports
      ⟨(heap exports).extensible, setProperty (heap exports).extensible (heap exports).props
        "add" (JsValue.function Callback.add_Add)⟩) := by
  simp [AddCpp.Init, Napi_String_New_ok env _ hs, Napi_Function_New_ok env _ hf,
    Napi_Object_Set_ok env _ _ _ _ hp, extract_add]

theorem HelloCpp_Init_ne_aborted (env : napi_env) (heap : Heap) (exports : ObjectRef) :
    HelloCpp.Init env heap exports ≠ aborted := by
  simp [HelloCpp.Init, Outcome.bind_eq_aborted, Napi_String_New_ne_aborted,
    Napi_Function_New_ne_aborted, Napi_Object_Set_ne_aborted]

theorem AddCpp_Init_ne_aborted (env : napi_env) (heap : Heap) (exports : ObjectRef) :
    AddCpp.Init env heap exports ≠ aborted := by
  simp [AddCpp.Init, Outcome.bind_eq_aborted, Napi_String_New_ne_aborted,
    Napi_Function_New_ne_aborted, Napi_Object_Set_ne_aborted]

theorem HelloCpp_Method_ne_aborted (heap : Heap) (info : CallbackInfo) :
    HelloCpp.Method heap info ≠ aborted := by
  simp [HelloCpp.Method, Outcome.bind_eq_aborted, Napi_String_New_ne_aborted]

theorem AddCpp_Add_ne_aborted (heap : Heap) (info : CallbackInfo) :
    AddCpp.Add heap info ≠ aborted := by
  simp [AddCpp.Add, Outcome.bind_eq_aborted, Napi_Number_DoubleValue_ne_aborted,
    Napi_Number_New]

/-! ## Greeter: `Method` of the two hello stubs -/

/-- C1: for every argument list, when the binding layer's string creation reports success,
`Method` of the C hello stub and `Method` of the C++ hello stub both return the string
"world" (and leave the heap as it was); for every outcome of the binding layer the result
is the same for any two argument lists. -/
theorem greeter_returns_world (env : napi_env) (heap : Heap) (args : List JsValue)
    (hok : env.create_string_utf8 = napi_ok) :
    HelloC.Method env heap args = returned (JsValue.string "world", heap) ∧
    HelloCpp.Method heap ⟨env, args⟩ = returned (JsValue.string "world", heap) ∧
    (∀ (e : napi_env) (h : Heap) (other : List JsValue),
      HelloC.Method e h other = HelloC.Method e h args ∧
      HelloCpp.Method h ⟨e, other⟩ = HelloCpp.Method h ⟨e, args⟩) :=
  ⟨HelloC_Method_ok env heap args hok, HelloCpp_Method_ok env heap args hok,
   fun _ _ _ => ⟨rfl, rfl⟩⟩

/-- Witness of C1: a call with two arguments in an environment where every binding call
succeeds. -/
theorem greeter_returns_world_witness :
    okEnv.create_string_utf8 = napi_ok ∧
    HelloC.Method okEnv emptyHeap [JsValue.number (F64.ofBits 7), JsValue.undefined]
      = returned (JsValue.string "world", emptyHeap) ∧
    HelloCpp.Method emptyHeap ⟨okEnv, [JsValue.number (F64.ofBits 7), JsValue.undefined]⟩
      = returned (JsValue.string "world", emptyHeap) :=
  ⟨rfl,
   (greeter_returns_world okEnv emptyHeap
      [JsValue.number (F64.ofBits 7), JsValue.undefined] rfl).1,
   (greeter_returns_world okEnv emptyHeap
      [JsValue.number (F64.ofBits 7), JsValue.undefined] rfl).2.1⟩

/-- C6 fails as stated: in an environment whose string creation reports a failure, a call of
`Method` of the C hello stub aborts the process (the `assert` of line 16). -/
theorem greeter_c_aborts_on_failed_creation :
    failEnv.create_string_utf8 = napi_status.failure 9 ∧
    HelloC.Method failEnv emptyHeap [] = aborted :=
  ⟨rfl, rfl⟩

/-- C6, amended: `Method` of the C hello stub returns exactly when `napi_create_string_utf8`
reports `napi_ok` and aborts the process on every other status; `Init` of the C hello stub
aborts exactly when `napi_define_properties` reports a status other than `napi_ok`; no
function of the C++ stubs (`Method` and `Init` of hello, `Add` and `Init` of add) aborts,
whatever the binding layer reports. -/
theorem abort_only_in_c_stub (env : napi_env) (heap : Heap) (exports : ObjectRef)
    (args : List JsValue) :
    ((HelloC.Method env heap args).isReturned = true ↔ env.create_string_utf8 = napi_ok) ∧
    (HelloC.Method env heap args = aborted ↔ env.create_string_utf8 ≠ napi_ok) ∧
    (HelloC.Init env heap exports = aborted ↔ env.define_properties ≠ napi_ok) ∧
    HelloCpp.Method heap ⟨env, args⟩ ≠ aborted ∧
    HelloCpp.Init env heap exports ≠ aborted ∧
    AddCpp.Add heap ⟨env, args⟩ ≠ aborted ∧
    AddCpp.Init env heap exports ≠ aborted := by
  refine ⟨?_, ?_, ?_, HelloCpp_Method_ne_aborted _ _, HelloCpp_Init_ne_aborted _ _ _,
    AddCpp_Add_ne_aborted _ _, AddCpp_Init_ne_aborted _ _ _⟩
  · by_cases h : env.create_string_utf8 = napi_ok
    · simp [HelloC_Method_ok env heap args h, Outcome.isReturned, h]
    · simp [HelloC_Method_failure env heap args h, Outcome.isReturned, h]
  · by_cases h : env.create_string_utf8 = napi_ok
    · simp [HelloC_Method_ok env heap args h, h]
    · simp [HelloC_Method_failure env heap args h, h]
  · by_cases h : env.define_properties = napi_ok
    · simp [HelloC_Init_ok env heap exports h, h]
    · simp [HelloC_Init_failure env heap exports h, h]

/-- C7: `Init` of the C hello stub returns `exports` if and only if `napi_define_properties`
reports `napi_ok`, and aborts the process on every other status; `Init` and `Method` of the
C++ hello stub never abort: a failure of a binding call is raised by the wrapper layer and
passes through them unchecked. -/
theorem hello_stubs_diverge_on_failure (env : napi_env) (heap : Heap) (exports : ObjectRef)
    (args : List JsValue) :
    ((∃ heap1, HelloC.Init env heap exports = returned (exports, heap1)) ↔
      env.define_properties = napi_ok) ∧
    (∀ code, env.define_properties = napi_status.failure code →
      HelloC.Init env heap exports = aborted) ∧
    HelloCpp.Init env heap exports ≠ aborted ∧
    HelloCpp.Method heap ⟨env, args⟩ ≠ aborted ∧
    (HelloCpp.Method heap ⟨env, args⟩ = raised ↔ env.create_string_utf8 ≠ napi_ok) ∧
    (HelloCpp.Init env heap exports = raised ↔
      (env.create_string_utf8 ≠ napi_ok ∨ env.create_function ≠ napi_ok ∨
        env.set_property ≠ napi_ok)) := by
  refine ⟨?_, ?_, HelloCpp_Init_ne_aborted _ _ _, HelloCpp_Method_ne_aborted _ _, ?_, ?_⟩
  · by_cases h : env.define_properties = napi_ok
    · simp [HelloC_Init_ok env heap exports h, h]
    · simp [HelloC_Init_failure env heap exports h, h]
  · intro code h
    exact HelloC_Init_failure env heap exports (by simp [h])
  · by_cases h : env.create_string_utf8 = napi_ok
    · simp [HelloCpp_Method_ok env heap args h, h]
    · simp [HelloCpp_Method_failure env heap args h, h]
  · by_cases hs : env.create_string_utf8 = napi_ok
    · by_cases hf : env.create_function = napi_ok
      · by_cases hp : env.set_property = napi_ok
        · simp [HelloCpp_Init_ok env heap exports hs hf hp, hs, hf, hp]
        · simp [HelloCpp.Init, Napi_String_New_ok env _ hs, Napi_Function_New_ok env _ hf,
            Napi_Object_Set_failure env _ _ _ _ hp, hp]
      · simp [HelloCpp.Init, Napi_String_New_ok env _ hs, Napi_Function_New_failure env _ hf,
          hf]
    · simp [HelloCpp.Init, Napi_String_New_failure env _ hs, hs]

/-- Witness of C7: with a failing environment the C `Init` aborts while the C++ `Init` and
`Method` raise; with a succeeding one the C `Init` returns `exports`. -/
theorem hello_stubs_diverge_on_failure_witness :
    HelloC.Init failEnv emptyHeap 0 = aborted ∧
    HelloCpp.Init failEnv emptyHeap 0 ≠ aborted ∧
    HelloCpp.Method emptyHeap ⟨failEnv, []⟩ ≠ aborted :=
  ⟨(hello_stubs_diverge_on_failure failEnv emptyHeap 0 []).2.1 9 rfl,
   (hello_stubs_diverge_on_failure failEnv emptyHeap 0 []).2.2.1,
   (hello_stubs_diverge_on_failure failEnv emptyHeap 0 []).2.2.2.1⟩

/-- C10: the length 5 passed to `napi_create_string_utf8` in `Method` of the C hello stub is
the byte length of the literal "world": the terminating NUL sits at offset 5 of the literal's
six bytes, the five bytes read are all the bytes before it, the string created from them is
the whole literal, and any smaller length would truncate it. -/
theorem greeter_c_length_is_literal_length :
    HelloC.Method_length = strlen HelloC.Method_str ∧
    HelloC.Method_length = HelloC.Method_str.utf8ByteSize ∧
    cBytes HelloC.Method_str = [119, 111, 114, 108, 100, 0] ∧
    (cBytes HelloC.Method_str).indexOf 0 = HelloC.Method_length ∧
    (cBytes HelloC.Method_str).take HelloC.Method_length ++ [0] = cBytes HelloC.Method_str ∧
    napi_create_string_utf8 okEnv HelloC.Method_str HelloC.Method_length
      = (napi_ok, some (JsValue.string "world")) ∧
    (∀ n, n < HelloC.Method_length →
      napi_create_string_utf8 okEnv HelloC.Method_str n
        ≠ (napi_ok, some (JsValue.string "world"))) := by
  refine ⟨by decide, by decide, by decide, by decide, by decide, by decide, ?_⟩
  intro n hn
  have h5 : n < 5 := hn
  interval_cases n <;> decide

/-! ## Module registration: the three `Init` functions -/

theorem keys_defineOwnProperty (ps : List Property) (p : Property) :
    keys (defineOwnProperty ps p)
      = if p.key ∈ keys ps then keys ps else keys ps ++ [p.key] := by
  induction ps with
  | nil => simp [defineOwnProperty, keys]
  | cons q qs ih =>
    unfold defineOwnProperty
    by_cases h : q.key = p.key
    · simp [keys, h]
    · have h2 : ¬ p.key = q.key := fun e => h e.symm
      simp only [keys, List.map_cons, List.mem_cons, h, h2, if_false, false_or] at ih ⊢
      rw [ih]
      split <;> simp

theorem lookup_defineOwnProperty_self (ps : List Property) (p : Property) :
    lookup (defineOwnProperty ps p) p.key = some p := by
  induction ps with
  | nil => simp [defineOwnProperty, lookup]
  | cons q qs ih =>
    unfold defineOwnProperty
    by_cases h : q.key = p.key
    · simp [lookup, h]
    · simp only [h, if_false]
      unfold lookup at ih ⊢
      rw [List.find?_cons_of_neg _ (by simpa using h)]
      exact ih

theorem lookup_defineOwnProperty_other (ps : List Property) (p : Property) (k : String)
    (hk : k ≠ p.key) : lookup (defineOwnProperty ps p) k = lookup ps k := by
  induction ps with
  | nil =>
    have : ¬ p.key = k := fun e => hk e.symm
    simp [defineOwnProperty, lookup, this]
  | cons q qs ih =>
    unfold defineOwnProperty
    by_cases h : q.key = p.key
    · have h1 : ¬ p.key = k := fun e => hk e.symm
      have h2 : ¬ q.key = k := fun e => hk (by rw [← e, h])
      simp [lookup, h, h1, h2]
    · simp only [h, if_false]
      unfold lookup at ih ⊢
      by_cases hq : q.key = k
      · simp [hq]
      · rw [List.find?_cons_of_neg _ (by simpa using hq),
          List.find?_cons_of_neg _ (by simpa using hq)]
        exact ih

theorem lookup_cons (q : Property) (qs : List Property) (k : String) :
    lookup (q :: qs) k = if q.key = k then some q else lookup qs k := by
  unfold lookup
  by_cases h : q.key = k
  · simp [h]
  · rw [List.find?_cons_of_neg _ (by simpa using h), if_neg h]

theorem lookup_nil (k : String) : lookup [] k = none := rfl

theorem lookup_setProperty_other (ext : Bool) (ps : List Property) (k : String) (v : JsValue)
    (j : String) (hj : j ≠ k) : lookup (setProperty ext ps k v) j = lookup ps j := by
  induction ps with
  | nil =>
    have h1 : ¬ k = j := fun e => hj e.symm
    cases ext <;> simp [setProperty, lookup_cons, lookup_nil, h1]
  | cons q qs ih =>
    unfold setProperty
    by_cases h : q.key = k
    · have h2 : ¬ q.key = j := fun e => hj (by rw [← e, h])
      have h1 : ¬ k = j := fun e => hj e.symm
      rw [if_pos h]
      by_cases hw : q.attributes.writable = true
      · rw [if_pos hw, lookup_cons, lookup_cons, if_neg h2]
        simp [h1]
      · rw [if_neg hw]
    · rw [if_neg h, lookup_cons, lookup_cons, ih]

theorem setProperty_absent (ext : Bool) (ps : List Property) (k : String) (v : JsValue)
    (h : lookup ps k = none) :
    setProperty ext ps k v = if ext then ps ++ [⟨k, v, assigned_attributes⟩] else ps := by
  induction ps with
  | nil => cases ext <;> simp [setProperty]
  | cons q qs ih =>
    rw [lookup_cons] at h
    by_cases hq : q.key = k
    · rw [if_pos hq] at h
      cases h
    · rw [if_neg hq] at h
      unfold setProperty
      rw [if_neg hq, ih h]
      cases ext <;> simp

theorem setProperty_readonly (ext : Bool) (ps : List Property) (k : String) (v : JsValue)
    (p : Property) (h : lookup ps k = some p) (hw : p.attributes.writable = false) :
    setProperty ext ps k v = ps := by
  induction ps with
  | nil => cases h
  | cons q qs ih =>
    rw [lookup_cons] at h
    unfold setProperty
    by_cases hq : q.key = k
    · rw [if_pos hq] at h
      injection h with h
      subst h
      rw [if_pos hq, hw]
      simp
    · rw [if_neg hq] at h
      rw [if_neg hq, ih h]

theorem setProperty_writable (ext : Bool) (ps : List Property) (k : String) (v : JsValue)
    (p : Property) (h : lookup ps k = some p) (hw : p.attributes.writable = true) :
    lookup (setProperty ext ps k v) k = some ⟨k, v, p.attributes⟩ ∧
      keys (setProperty ext ps k v) = keys ps := by
  induction ps with
  | nil => cases h
  | cons q qs ih =>
    rw [lookup_cons] at h
    unfold setProperty
    by_cases hq : q.key = k
    · rw [if_pos hq] at h
      injection h with h
      subst h
      rw [if_pos hq, if_pos hw, lookup_cons]
      simp [keys, hq]
    · rw [if_neg hq] at h
      obtain ⟨h1, h2⟩ := ih h
      rw [if_neg hq, lookup_cons, if_neg hq]
      refine ⟨h1, ?_⟩
      simp only [keys, List.map_cons] at h2 ⊢
      rw [h2]

theorem lookup_append_new (ps : List Property) (x : Property) (h : lookup ps x.key = none) :
    lookup (ps ++ [x]) x.key = some x := by
  induction ps with
  | nil => simp [lookup_cons]
  | cons q qs ih =>
    rw [lookup_cons] at h
    by_cases hq : q.key = x.key
    · rw [if_pos hq] at h
      cases h
    · rw [if_neg hq] at h
      rw [List.cons_append, lookup_cons, if_neg hq]
      exact ih h

theorem lookup_eq_none_iff (ps : List Property) (k : String) :
    lookup ps k = none ↔ k ∉ keys ps := by
  induction ps with
  | nil => simp [lookup_nil, keys]
  | cons q qs ih =>
    rw [lookup_cons]
    by_cases hq : q.key = k
    · simp [hq, keys]
    · have h2 : ¬ k = q.key := fun e => hq e.symm
      rw [if_neg hq, ih]
      simp [keys, h2]

theorem Defines_defineOwnProperty (obj : JsObject) (p : Property) :
    Defines obj ⟨obj.extensible, defineOwnProperty obj.props p⟩ p :=
  ⟨rfl, lookup_defineOwnProperty_self obj.props p,
   fun k hk => lookup_defineOwnProperty_other obj.props p k hk,
   keys_defineOwnProperty obj.props p⟩

theorem Assigns_setProperty (obj : JsObject) (key : String) (v : JsValue) :
    Assigns obj ⟨obj.extensible, setProperty obj.extensible obj.props key v⟩ key v := by
  refine ⟨rfl, fun k hk => lookup_setProperty_other _ _ _ _ k hk, ?_, ?_, ?_, ?_⟩
  · intro h he
    have e := setProperty_absent obj.extensible obj.props key v h
    rw [he, if_pos rfl] at e
    have e2 : setProperty true obj.props key v
        = obj.props ++ [⟨key, v, assigned_attributes⟩] := e
    simp only [he]
    rw [e2]
    exact ⟨rfl, lookup_append_new obj.props ⟨key, v, assigned_attributes⟩ h⟩
  · intro h he
    have e := setProperty_absent obj.extensible obj.props key v h
    rw [he] at e
    simp only [he]
    cases obj with
    | mk ext ps =>
      simp only at he e ⊢
      subst he
      rw [e]
      simp
  · intro p h hw
    exact setProperty_writable _ _ _ _ p h hw
  · intro p h hw
    rw [setProperty_readonly _ _ _ _ p h hw]

/-- C4 fails as stated: on an exports object that already has the key "hello" (an ordinary
writable property), `Init` of the C++ hello stub adds no key and rebinds the key that was
there. -/
theorem registration_rebinds_existing_key :
    keys (heapWithHello 0).props = ["hello"] ∧
    (lookup (heapWithHello 0).props "hello").map Property.value
      = some (JsValue.string "old") ∧
    (HelloCpp.Init okEnv heapWithHello 0).map (fun r => (r.1, keys (r.2 0).props))
      = returned (0, ["hello"]) ∧
    (HelloCpp.Init okEnv heapWithHello 0).map
        (fun r => (lookup (r.2 0).props "hello").map Property.value)
      = returned (some (JsValue.function Callback.hello_cpp_Method)) := by
  decide

/-- C4, amended: when the binding calls a stub's registration makes report success, `Init`
returns the exports object it was given, leaves every key other than the stub's own key
("hello" for the two hello stubs, "add" for the add stub) bound as before, adds no other
key and leaves every other object unchanged.  The C stub defines its key: afterwards
"hello" is bound to the C `Method` with the attributes `napi_default`, added at the end
when exports did not have it.  The C++ stubs assign to their key: it is added, bound to the
stub's function, when an extensible exports did not have it; a writable property of that
key is rebound to the stub's function; a read-only property of that key, and a
non-extensible exports without the key, are left as they were. -/
theorem registration_binds_one_key (env : napi_env) (heap : Heap) (exports : ObjectRef) :
    (env.define_properties = napi_ok →
      ∃ heap1, HelloC.Init env heap exports = returned (exports, heap1) ∧
        Defines (heap exports) (heap1 exports)
          ⟨"hello", JsValue.function Callback.hello_c_Method, napi_default⟩ ∧
        ∀ o, o ≠ exports → heap1 o = heap o) ∧
    (env.create_string_utf8 = napi_ok → env.create_function = napi_ok →
      env.set_property = napi_ok →
      ∃ heap1, HelloCpp.Init env heap exports = returned (exports, heap1) ∧
        Assigns (heap exports) (heap1 exports) "hello"
          (JsValue.function Callback.hello_cpp_Method) ∧
        ∀ o, o ≠ exports → heap1 o = heap o) ∧
    (env.create_string_utf8 = napi_ok → env.create_function = napi_ok →
      env.set_property = napi_ok →
      ∃ heap1, AddCpp.Init env heap exports = returned (exports, heap1) ∧
        Assigns (heap exports) (heap1 exports) "add" (JsValue.function Callback.add_Add) ∧
        ∀ o, o ≠ exports → heap1 o = heap o) := by
  refine ⟨fun hd => ⟨_, HelloC_Init_ok env heap exports hd, ?_, ?_⟩,
    fun hs hf hp => ⟨_, HelloCpp_Init_ok env heap exports hs hf hp, ?_, ?_⟩,
    fun hs hf hp => ⟨_, AddCpp_Init_ok env heap exports hs hf hp, ?_, ?_⟩⟩
  · rw [Function.update_same]
    exact Defines_defineOwnProperty _ _
  · intro o ho
    exact Function.update_noteq ho _ _
  · rw [Function.update_same]
    exact Assigns_setProperty _ _ _
  · intro o ho
    exact Function.update_noteq ho _ _
  · rw [Function.update_same]
    exact Assigns_setProperty _ _ _
  · intro o ho
    exact Function.update_noteq ho _ _

/-- Witness of C4: the C++ hello stub on an exports object whose "hello" is read-only leaves
the object as it was; the add stub on an exports object that has only "hello" adds "add"
at the end; the C stub on an exports object without properties adds "hello"; the add stub
on a non-extensible exports object without properties leaves it as it was. -/
theorem registration_binds_one_key_witness :
    (∃ heap1, HelloCpp.Init okEnv heapReadOnlyHello 0 = returned (0, heap1) ∧
      heap1 0 = heapReadOnlyHello 0) ∧
    (∃ heap1, AddCpp.Init okEnv heapWithHello 0 = returned (0, heap1) ∧
      (heap1 0).props = (heapWithHello 0).props
        ++ [⟨"add", JsValue.function Callback.add_Add, assigned_attributes⟩]) ∧
    (∃ heap1, HelloC.Init okEnv emptyHeap 0 = returned (0, heap1) ∧
      lookup (heap1 0).props "hello"
        = some ⟨"hello", JsValue.function Callback.hello_c_Method, napi_default⟩) ∧
    (∃ heap1, AddCpp.Init okEnv heapNotExtensible 0 = returned (0, heap1) ∧
      heap1 0 = heapNotExtensible 0) := by
  refine ⟨?_, ?_, ?_, ?_⟩
  · obtain ⟨heap1, h1, h2, _⟩ := (registration_binds_one_key okEnv heapReadOnlyHello 0).2.1
      rfl rfl rfl
    exact ⟨heap1, h1,
      h2.2.2.2.2.2 ⟨"hello", JsValue.string "old", ⟨false, true, true⟩⟩ (by decide) rfl⟩
  · obtain ⟨heap1, h1, h2, _⟩ := (registration_binds_one_key okEnv heapWithHello 0).2.2
      rfl rfl rfl
    exact ⟨heap1, h1, (h2.2.2.1 (by decide) rfl).1⟩
  · obtain ⟨heap1, h1, h2, _⟩ := (registration_binds_one_key okEnv emptyHeap 0).1 rfl
    exact ⟨heap1, h1, h2.2.1⟩
  · obtain ⟨heap1, h1, h2, _⟩ := (registration_binds_one_key okEnv heapNotExtensible 0).2.2
      rfl rfl rfl
    exact ⟨heap1, h1, h2.2.2.2.1 rfl rfl⟩

/-! ## The two hello stubs side by side -/

/-- C9 fails as stated: with every binding call succeeding and a fresh exports object
(extensible, without properties), the two `Init` functions leave different states: the C
stub defines "hello" with the attributes `napi_default` (read-only, not enumerable, not
configurable), the C++ stub assigns it (writable, enumerable, configurable). -/
theorem hello_inits_leave_different_states :
    (HelloC.Init okEnv emptyHeap 0).map (fun r => (r.2 0).props)
      = returned [⟨"hello", JsValue.function Callback.hello_c_Method, ⟨false, false, false⟩⟩] ∧
    (HelloCpp.Init okEnv emptyHeap 0).map (fun r => (r.2 0).props)
      = returned [⟨"hello", JsValue.function Callback.hello_cpp_Method, ⟨true, true, true⟩⟩] ∧
    (HelloC.Init okEnv emptyHeap 0).map (fun r => r.2 0)
      ≠ (HelloCpp.Init okEnv emptyHeap 0).map (fun r => r.2 0) := by
  decide

/-- C9, amended: when every binding call reports success, both `Init` functions return the
exports object they were given, leave every key other than "hello" bound as before (so
bound alike in both) and every other object unchanged, and for every argument list both
`Method` functions return the string "world" and leave the heap as it was.  On "hello" they
differ: the C stub defines it (bound to the C `Method`, attributes `napi_default`), the C++
stub assigns it (see `Assigns`: a read-only "hello" and a non-extensible exports stay as
they were).  On a fresh exports object (extensible, no "hello") each adds the one key
"hello" at the end, bound to its own `Method`, the C stub with the attributes
`napi_default` (read-only, not enumerable, not configurable), the C++ stub with those of
an assignment (writable, enumerable, configurable). -/
theorem hello_stubs_agree_on_success (env : napi_env) (heap : Heap) (exports : ObjectRef)
    (args : List JsValue)
    (hs : env.create_string_utf8 = napi_ok) (hf : env.create_function = napi_ok)
    (hd : env.define_properties = napi_ok) (hp : env.set_property = napi_ok) :
    (∃ heapC heapCpp,
      HelloC.Init env heap exports = returned (exports, heapC) ∧
      HelloCpp.Init env heap exports = returned (exports, heapCpp) ∧
      Defines (heap exports) (heapC exports)
        ⟨"hello", JsValue.function Callback.hello_c_Method, napi_default⟩ ∧
      Assigns (heap exports) (heapCpp exports) "hello"
        (JsValue.function Callback.hello_cpp_Method) ∧
      (∀ k, k ≠ "hello" →
        lookup (heapC exports).props k = lookup (heapCpp exports).props k) ∧
      (∀ o, o ≠ exports → heapC o = heap o ∧ heapCpp o = heap o) ∧
      (lookup (heap exports).props "hello" = none → (heap exports).extensible = true →
        keys (heapC exports).props = keys (heap exports).props ++ ["hello"] ∧
        keys (heapCpp exports).props = keys (heap exports).props ++ ["hello"] ∧
        lookup (heapC exports).props "hello"
          = some ⟨"hello", JsValue.function Callback.hello_c_Method, napi_default⟩ ∧
        lookup (heapCpp exports).props "hello"
          = some ⟨"hello", JsValue.function Callback.hello_cpp_Method,
              assigned_attributes⟩)) ∧
    invoke env heap Callback.hello_c_Method args = returned (JsValue.string "world", heap) ∧
    invoke env heap Callback.hello_cpp_Method args
      = returned (JsValue.string "world", heap) := by
  have hD := Defines_defineOwnProperty (heap exports)
    ⟨"hello", JsValue.function Callback.hello_c_Method, napi_default⟩
  have hA := Assigns_setProperty (heap exports) "hello"
    (JsValue.function Callback.hello_cpp_Method)
  refine ⟨⟨_, _, HelloC_Init_ok env heap exports hd, HelloCpp_Init_ok env heap exports hs hf hp,
    ?_, ?_, ?_, ?_, ?_⟩, HelloC_Method_ok env heap args hs, HelloCpp_Method_ok env heap args hs⟩
  · rw [Function.update_same]
    exact hD
  · rw [Function.update_same]
    exact hA
  · intro k hk
    rw [Function.update_same, Function.update_same]
    rw [hD.2.2.1 k hk, hA.2.1 k hk]
  · intro o ho
    exact ⟨Function.update_noteq ho _ _, Function.update_noteq ho _ _⟩
  · intro hnone hext
    rw [Function.update_same, Function.update_same]
    have hk : "hello" ∉ keys (heap exports).props := (lookup_eq_none_iff _ _).mp hnone
    obtain ⟨a1, a2⟩ := hA.2.2.1 hnone hext
    refine ⟨?_, ?_, hD.2.1, a2⟩
    · have := hD.2.2.2
      simp only [hk, if_false] at this
      exact this
    · rw [a1]
      simp [keys]

/-- Witness of C9: both stubs on a fresh exports object, and both `Method` functions in a
heap whose objects have a read-only "hello". -/
theorem hello_stubs_agree_on_success_witness :
    okEnv.create_string_utf8 = napi_ok ∧ okEnv.create_function = napi_ok ∧
    okEnv.define_properties = napi_ok ∧ okEnv.set_property = napi_ok ∧
    (∃ heapC heapCpp,
      HelloC.Init okEnv emptyHeap 0 = returned (0, heapC) ∧
      HelloCpp.Init okEnv emptyHeap 0 = returned (0, heapCpp) ∧
      keys (heapC 0).props = ["hello"] ∧ keys (heapCpp 0).props = ["hello"] ∧
      lookup (heapC 0).props "hello"
        = some ⟨"hello", JsValue.function Callback.hello_c_Method, napi_default⟩ ∧
      lookup (heapCpp 0).props "hello"
        = some ⟨"hello", JsValue.function Callback.hello_cpp_Method, assigned_attributes⟩) ∧
    invoke okEnv heapReadOnlyHello Callback.hello_c_Method [JsValue.undefined]
      = returned (JsValue.string "world", heapReadOnlyHello) ∧
    invoke okEnv heapReadOnlyHello Callback.hello_cpp_Method [JsValue.undefined]
      = returned (JsValue.string "world", heapReadOnlyHello) := by
  obtain ⟨⟨heapC, heapCpp, h1, h2, _, _, _, _, h7⟩, _⟩ :=
    hello_stubs_agree_on_success okEnv emptyHeap 0 [] rfl rfl rfl rfl
  obtain ⟨k1, k2, k3, k4⟩ := h7 rfl rfl
  exact ⟨rfl, rfl, rfl, rfl, ⟨heapC, heapCpp, h1, h2, k1, k2, k3, k4⟩,
    (hello_stubs_agree_on_success okEnv heapReadOnlyHello 0 [JsValue.undefined]
      rfl rfl rfl rfl).2⟩

/-! ## Purity of Greeter and Adder -/

theorem invoke_frame (env : napi_env) (heap : Heap) (cb : Callback) (args : List JsValue)
    (v : JsValue) (heap1 : Heap) (h : invoke env heap cb args = returned (v, heap1)) :
    heap1 = heap := by
  cases cb with
  | hello_c_Method =>
    by_cases hs : env.create_string_utf8 = napi_ok
    · rw [invoke, HelloC_Method_ok env heap args hs] at h
      injection h with h
      exact (congrArg Prod.snd h).symm
    · rw [invoke, HelloC_Method_failure env heap args hs] at h
      cases h
  | hello_cpp_Method =>
    by_cases hs : env.create_string_utf8 = napi_ok
    · rw [invoke, HelloCpp_Method_ok env heap args hs] at h
      injection h with h
      exact (congrArg Prod.snd h).symm
    · rw [invoke, HelloCpp_Method_failure env heap args hs] at h
      cases h
  | add_Add =>
    simp only [invoke, AddCpp.Add, Napi_Number_New, Outcome.bind_eq_returned,
      Outcome.bind_returned] at h
    obtain ⟨_, _, _, _, h⟩ := h
    injection h with h
    exact (congrArg Prod.snd h).symm

theorem invoke_heap_independent (env : napi_env) (heap other : Heap) (cb : Callback)
    (args : List JsValue) :
    (invoke env heap cb args).map Prod.fst = (invoke env other cb args).map Prod.fst := by
  cases cb with
  | hello_c_Method =>
    by_cases hs : env.create_string_utf8 = napi_ok
    · simp [invoke, HelloC_Method_ok env _ args hs, Outcome.map]
    · simp [invoke, HelloC_Method_failure env _ args hs, Outcome.map]
  | hello_cpp_Method =>
    by_cases hs : env.create_string_utf8 = napi_ok
    · simp [invoke, HelloCpp_Method_ok env _ args hs, Outcome.map]
    · simp [invoke, HelloCpp_Method_failure env _ args hs, Outcome.map]
  | add_Add =>
    simp only [invoke, AddCpp.Add, Napi_Number_New, Outcome.map, CallbackInfo.Env]
    cases Napi_Number_DoubleValue env (CallbackInfo.get ⟨env, args⟩ 0) <;>
      cases Napi_Number_DoubleValue env (CallbackInfo.get ⟨env, args⟩ 1) <;> simp

theorem runCalls_frame (env : napi_env) (prior : List (Callback × List JsValue)) (heap : Heap) :
    runCalls env heap prior = none ∨ runCalls env heap prior = some heap := by
  induction prior with
  | nil => exact Or.inr rfl
  | cons c rest ih =>
    obtain ⟨cb, args⟩ := c
    unfold runCalls
    cases h : invoke env heap cb args with
    | returned r =>
      obtain ⟨v, heap1⟩ := r
      have := invoke_frame env heap cb args v heap1 h
      subst this
      exact ih
    | aborted => exact Or.inl rfl
    | raised => exact ih

/-- C5: Greeter (`Method` of either hello stub) and Adder (`Add`) are pure.  A call writes
nothing that survives it (the heap it hands back is the heap it was given), its result
does not depend on the heap it runs in, and so, after any number of prior calls of the
registered functions with any arguments, the same call in the same environment yields the
same result as when it is the first call. -/
theorem greeter_and_adder_pure (env : napi_env) (heap : Heap) (cb : Callback)
    (args : List JsValue) (prior : List (Callback × List JsValue)) :
    (∀ v heap1, invoke env heap cb args = returned (v, heap1) → heap1 = heap) ∧
    (∀ other : Heap,
      (invoke env other cb args).map Prod.fst = (invoke env heap cb args).map Prod.fst) ∧
    (runCalls env heap prior = none ∨ runCalls env heap prior = some heap) ∧
    (∀ heap1, runCalls env heap prior = some heap1 →
      invoke env heap1 cb args = invoke env heap cb args) := by
  refine ⟨invoke_frame env heap cb args, fun other => invoke_heap_independent env other heap cb args,
    runCalls_frame env prior heap, ?_⟩
  intro heap1 h
  rcases runCalls_frame env prior heap with h0 | h0
  · rw [h0] at h
    cases h
  · rw [h0] at h
    injection h with h
    rw [← h]

/-- Witness of C5: a call of `Add` gives the same result in two different heaps, and after
a call of each registered function. -/
theorem greeter_and_adder_pure_witness :
    (invoke okEnv emptyHeap Callback.add_Add [JsValue.number (F64.ofBits 0)]).map Prod.fst
      = (invoke okEnv heapWithHello Callback.add_Add [JsValue.number (F64.ofBits 0)]).map
          Prod.fst ∧
    invoke okEnv heapWithHello Callback.add_Add [JsValue.number (F64.ofBits 0)]
      = invoke okEnv heapWithHello Callback.add_Add [JsValue.number (F64.ofBits 0)] :=
  ⟨(greeter_and_adder_pure okEnv heapWithHello Callback.add_Add
      [JsValue.number (F64.ofBits 0)] []).2.1 emptyHeap,
   (greeter_and_adder_pure okEnv heapWithHello Callback.add_Add
      [JsValue.number (F64.ofBits 0)]
      [(Callback.hello_c_Method, []), (Callback.add_Add, [JsValue.undefined]),
       (Callback.hello_cpp_Method, [])]).2.2.2 heapWithHello rfl⟩

/-! ## Double-precision addition is correctly rounded -/

theorem bitLengthAux_zero (fuel : Nat) : bitLengthAux fuel 0 = 0 := by
  cases fuel <;> simp [bitLengthAux]

theorem bitLengthAux_bounds : ∀ (fuel n : Nat), n < 2 ^ fuel → 0 < n →
    2 ^ (bitLengthAux fuel n - 1) ≤ n ∧ n < 2 ^ bitLengthAux fuel n ∧
      0 < bitLengthAux fuel n := by
  intro fuel
  induction fuel with
  | zero =>
    intro n h hn
    simp at h
    omega
  | succ f ih =>
    intro n h hn
    have hne : n ≠ 0 := by omega
    simp only [bitLengthAux, hne, if_false]
    by_cases h2 : n / 2 = 0
    · have h1 : n = 1 := by omega
      subst h1
      simp [bitLengthAux_zero]
    · have hlt : n / 2 < 2 ^ f := by
        rw [pow_succ] at h
        omega
      obtain ⟨h1, h3, h4⟩ := ih (n / 2) hlt (by omega)
      have hk : 2 ^ bitLengthAux f (n / 2) = 2 * 2 ^ (bitLengthAux f (n / 2) - 1) := by
        rw [← pow_succ']
        congr 1
        omega
      refine ⟨?_, ?_, by omega⟩
      · simp only [Nat.add_sub_cancel]
        omega
      · rw [pow_succ]
        omega

theorem bitLength_bounds (n : Nat) (hn : 0 < n) :
    2 ^ (bitLength n - 1) ≤ n ∧ n < 2 ^ bitLength n ∧ 0 < bitLength n :=
  bitLengthAux_bounds n n (Nat.lt_two_pow n) hn

theorem shift_bounds (n : Nat) (h : 2 ^ 53 ≤ n) :
    1 ≤ bitLength n - 53 ∧ 2 ^ 52 * 2 ^ (bitLength n - 53) ≤ n ∧
      n < 2 ^ 53 * 2 ^ (bitLength n - 53) := by
  have hn : 0 < n := lt_of_lt_of_le (by positivity) h
  obtain ⟨h1, h2, h3⟩ := bitLength_bounds n hn
  have hk : 53 < bitLength n := by
    by_contra hc
    have : 2 ^ bitLength n ≤ 2 ^ 53 := Nat.pow_le_pow_right (by norm_num) (by omega)
    omega
  refine ⟨by omega, ?_, ?_⟩
  · rw [← pow_add]
    have : 52 + (bitLength n - 53) = bitLength n - 1 := by omega
    rw [this]
    exact h1
  · rw [← pow_add]
    have : 53 + (bitLength n - 53) = bitLength n := by omega
    rw [this]
    exact h2

theorem magnitude_small (sign : Bool) (n : Nat) (h : n < 2 ^ 53) :
    F64.magnitude ⟨sign, n / 2 ^ 52, n % 2 ^ 52⟩ = n := by
  unfold F64.magnitude
  simp only
  have hd := Nat.div_add_mod n (2 ^ 52)
  by_cases h0 : n / 2 ^ 52 = 0
  · rw [if_pos h0]
    rw [h0] at hd
    omega
  · rw [if_neg h0]
    have h1 : n / 2 ^ 52 = 1 := by
      have : n / 2 ^ 52 < 2 := Nat.div_lt_of_lt_mul (by omega)
      omega
    rw [h1] at hd ⊢
    simp only [Nat.sub_self, pow_zero, mul_one]
    omega

theorem magnitude_encode (sign : Bool) (shift q1 : Nat) (h1 : 2 ^ 52 ≤ q1) (h2 : q1 ≤ 2 ^ 53) :
    F64.magnitude ⟨sign, shift + q1 / 2 ^ 52, q1 % 2 ^ 52⟩ = q1 * 2 ^ shift := by
  unfold F64.magnitude
  simp only
  have hd := Nat.div_add_mod q1 (2 ^ 52)
  have hpos : 0 < q1 / 2 ^ 52 := Nat.div_pos h1 (by positivity)
  have hne : ¬ shift + q1 / 2 ^ 52 = 0 := by omega
  rw [if_neg hne]
  by_cases hq : q1 = 2 ^ 53
  · subst hq
    have e1 : (2 : ℕ) ^ 53 / 2 ^ 52 = 2 := by norm_num
    have e2 : (2 : ℕ) ^ 53 % 2 ^ 52 = 0 := by norm_num
    rw [e1, e2]
    have : shift + 2 - 1 = shift + 1 := by omega
    rw [this, pow_succ]
    ring
  · have h3 : q1 / 2 ^ 52 = 1 := by
      have : q1 / 2 ^ 52 < 2 := Nat.div_lt_of_lt_mul (by omega)
      omega
    rw [h3] at hd ⊢
    have : shift + 1 - 1 = shift := by omega
    have e : 2 ^ 52 + q1 % 2 ^ 52 = q1 := by omega
    rw [this, e]

theorem magnitude_gap (x : F64) (hx : x.finite) (shift q : Nat) (hq : 2 ^ 52 ≤ q) :
    x.magnitude ≤ q * 2 ^ shift ∨ (q + 1) * 2 ^ shift ≤ x.magnitude := by
  obtain ⟨he, hf⟩ := hx
  have hP : 0 < 2 ^ shift := by positivity
  unfold F64.magnitude
  by_cases h0 : x.exponent = 0
  · rw [if_pos h0]
    left
    calc x.fraction ≤ q := by omega
      _ = q * 1 := (mul_one q).symm
      _ ≤ q * 2 ^ shift := Nat.mul_le_mul_left q hP
  · rw [if_neg h0]
    by_cases ht : shift ≤ x.exponent - 1
    · obtain ⟨d, hd⟩ := Nat.exists_eq_add_of_le ht
      rw [hd, pow_add, mul_comm (2 ^ shift), ← mul_assoc]
      by_cases hc : (2 ^ 52 + x.fraction) * 2 ^ d ≤ q
      · left
        exact Nat.mul_le_mul_right _ hc
      · right
        exact Nat.mul_le_mul_right _ (by omega)
    · left
      have h1 : 2 ^ (x.exponent - 1 + 1) ≤ 2 ^ shift :=
        Nat.pow_le_pow_right (by norm_num) (by omega)
      calc (2 ^ 52 + x.fraction) * 2 ^ (x.exponent - 1)
          ≤ 2 ^ 53 * 2 ^ (x.exponent - 1) := Nat.mul_le_mul_right _ (by omega)
        _ = 2 ^ 52 * 2 ^ (x.exponent - 1 + 1) := by rw [pow_succ]; ring
        _ ≤ 2 ^ 52 * 2 ^ shift := Nat.mul_le_mul_left _ h1
        _ ≤ q * 2 ^ shift := Nat.mul_le_mul_right _ hq

theorem nearest_core (qP P half r m n : ℤ) (hP : P = 2 * half) (hr0 : 0 ≤ r) (hr : r < P)
    (hn : n = qP + r) (hm : m ≤ qP ∨ qP + P ≤ m) :
    (half ≤ r → |qP + P - n| ≤ |m - n|) ∧ (r ≤ half → |qP - n| ≤ |m - n|) := by
  constructor
  · intro h
    rcases abs_cases (qP + P - n) with ⟨h1, _⟩ | ⟨h1, _⟩ <;>
      rcases abs_cases (m - n) with ⟨h2, _⟩ | ⟨h2, _⟩ <;> omega
  · intro h
    rcases abs_cases (qP - n) with ⟨h1, _⟩ | ⟨h1, _⟩ <;>
      rcases abs_cases (m - n) with ⟨h2, _⟩ | ⟨h2, _⟩ <;> omega

theorem tie_core (qP P half r m n : ℤ) (hP : P = 2 * half) (hr0 : 0 ≤ r) (hr : r < P)
    (hn : n = qP + r) (hm : m ≤ qP ∨ qP + P ≤ m) :
    (half ≤ r → m ≠ qP + P → |m - n| = |qP + P - n| → r = half) ∧
    (r ≤ half → m ≠ qP → |m - n| = |qP - n| → r = half) := by
  constructor
  · intro h hne he
    rcases abs_cases (qP + P - n) with ⟨h1, _⟩ | ⟨h1, _⟩ <;>
      rcases abs_cases (m - n) with ⟨h2, _⟩ | ⟨h2, _⟩ <;> omega
  · intro h hne he
    rcases abs_cases (qP - n) with ⟨h1, _⟩ | ⟨h1, _⟩ <;>
      rcases abs_cases (m - n) with ⟨h2, _⟩ | ⟨h2, _⟩ <;> omega

theorem roundNearestEven_small (sign : Bool) (n : Nat) (h : n < 2 ^ 53) :
    F64.roundNearestEven sign n = ⟨sign, n / 2 ^ 52, n % 2 ^ 52⟩ := by
  unfold F64.roundNearestEven
  rw [if_pos h]

theorem roundNearestEven_large (sign : Bool) (n : Nat) (h : 2 ^ 53 ≤ n) :
    ∃ shift q r q1 : Nat,
      1 ≤ shift ∧ 2 ^ 52 * 2 ^ shift ≤ n ∧ n < 2 ^ 53 * 2 ^ shift ∧
      n = q * 2 ^ shift + r ∧ r < 2 ^ shift ∧ 2 ^ 52 ≤ q ∧ q < 2 ^ 53 ∧
      ((q1 = q + 1 ∧ (2 ^ (shift - 1) < r ∨ (r = 2 ^ (shift - 1) ∧ q % 2 = 1))) ∨
       (q1 = q ∧ ¬ (2 ^ (shift - 1) < r ∨ (r = 2 ^ (shift - 1) ∧ q % 2 = 1)))) ∧
      F64.roundNearestEven sign n
        = if 2047 ≤ shift + q1 / 2 ^ 52 then F64.infinity sign
          else ⟨sign, shift + q1 / 2 ^ 52, q1 % 2 ^ 52⟩ := by
  obtain ⟨h1, h2, h3⟩ := shift_bounds n h
  have hP : 0 < 2 ^ (bitLength n - 53) := by positivity
  refine ⟨bitLength n - 53, n / 2 ^ (bitLength n - 53), n % 2 ^ (bitLength n - 53),
    if 2 ^ (bitLength n - 53 - 1) < n % 2 ^ (bitLength n - 53) ∨
        (n % 2 ^ (bitLength n - 53) = 2 ^ (bitLength n - 53 - 1) ∧
          n / 2 ^ (bitLength n - 53) % 2 = 1)
      then n / 2 ^ (bitLength n - 53) + 1 else n / 2 ^ (bitLength n - 53),
    h1, h2, h3, ?_, Nat.mod_lt _ hP, ?_, ?_, ?_, ?_⟩
  · rw [mul_comm]
    exact (Nat.div_add_mod n _).symm
  · rw [Nat.le_div_iff_mul_le hP]
    exact h2
  · rw [Nat.div_lt_iff_lt_mul hP]
    exact h3
  · by_cases hc : 2 ^ (bitLength n - 53 - 1) < n % 2 ^ (bitLength n - 53) ∨
        (n % 2 ^ (bitLength n - 53) = 2 ^ (bitLength n - 53 - 1) ∧
          n / 2 ^ (bitLength n - 53) % 2 = 1)
    · left
      exact ⟨if_pos hc, hc⟩
    · right
      exact ⟨if_neg hc, hc⟩
  · unfold F64.roundNearestEven
    rw [if_neg (by omega)]

theorem overflow_iff (shift q r q1 n : Nat)
    (hlo : 2 ^ 52 * 2 ^ shift ≤ n) (hhi : n < 2 ^ 53 * 2 ^ shift)
    (hn : n = q * 2 ^ shift + r) (hr : r < 2 ^ shift) (hq1 : 2 ^ 52 ≤ q) (hq2 : q < 2 ^ 53)
    (hq : (q1 = q + 1 ∧ (2 ^ (shift - 1) < r ∨ (r = 2 ^ (shift - 1) ∧ q % 2 = 1))) ∨
       (q1 = q ∧ ¬ (2 ^ (shift - 1) < r ∨ (r = 2 ^ (shift - 1) ∧ q % 2 = 1)))) :
    2047 ≤ shift + q1 / 2 ^ 52 ↔ (2 ^ 54 - 1) * 2 ^ 2044 ≤ n := by
  have hq1le : q1 ≤ 2 ^ 53 := by
    rcases hq with ⟨h, _⟩ | ⟨h, _⟩ <;> omega
  have hdiv : q1 / 2 ^ 52 ≤ 2 := by omega
  rcases lt_trichotomy shift 2045 with hlt | heq | hgt
  · have hP : 2 ^ shift ≤ 2 ^ 2044 := Nat.pow_le_pow_right (by norm_num) (by omega)
    generalize (2 : ℕ) ^ 2044 = H at hP ⊢
    generalize (2 : ℕ) ^ shift = P at hP hlo hhi hn hr
    constructor
    · intro h
      omega
    · intro h
      omega
  · subst heq
    have hP : (2 : ℕ) ^ 2045 = 2 * 2 ^ 2044 := pow_succ' 2 2044
    have e : 2045 - 1 = 2044 := rfl
    rw [e] at hq
    rw [hP] at hlo hhi hn hr
    generalize (2 : ℕ) ^ 2044 = H at hq hlo hhi hn hr ⊢
    by_cases hqmax : q = 2 ^ 53 - 1
    · subst hqmax
      rcases hq with ⟨h1, h2⟩ | ⟨h1, h2⟩
      · subst h1
        constructor
        · intro _
          omega
        · intro _
          norm_num
      · subst h1
        constructor
        · intro h
          omega
        · intro h
          exfalso
          apply h2
          omega
    · have hX : q * (2 * H) ≤ (2 ^ 53 - 2) * (2 * H) := Nat.mul_le_mul_right _ (by omega)
      generalize q * (2 * H) = X at hX hn
      have hq1 : q1 / 2 ^ 52 ≤ 1 := by
        rcases hq with ⟨h, _⟩ | ⟨h, _⟩ <;> omega
      constructor
      · intro h
        omega
      · intro h
        omega
  · have hP : 2 ^ 2046 ≤ 2 ^ shift := Nat.pow_le_pow_right (by norm_num) (by omega)
    have h4 : (2 : ℕ) ^ 2046 = 4 * 2 ^ 2044 := by rw [pow_succ, pow_succ]; ring
    rw [h4] at hP
    generalize (2 : ℕ) ^ 2044 = H at hP ⊢
    generalize (2 : ℕ) ^ shift = P at hP hlo hhi hn hr
    have hpos : 1 ≤ q1 / 2 ^ 52 := by
      rcases hq with ⟨h, _⟩ | ⟨h, _⟩ <;> omega
    constructor
    · intro _
      omega
    · intro _
      omega

theorem threshold_ge (H : Nat) (hH : 1 ≤ H) : 2 ^ 53 ≤ (2 ^ 54 - 1) * H := by
  omega

theorem roundNearestEven_spec (sign : Bool) (n : Nat) :
    (n < (2 ^ 54 - 1) * 2 ^ 2044 →
      (F64.roundNearestEven sign n).finite ∧ (F64.roundNearestEven sign n).sign = sign ∧
      (∀ x : F64, x.finite →
        |((F64.roundNearestEven sign n).magnitude : ℤ) - n| ≤ |(x.magnitude : ℤ) - n|) ∧
      (∀ x : F64, x.finite → x.magnitude ≠ (F64.roundNearestEven sign n).magnitude →
        |(x.magnitude : ℤ) - n| = |((F64.roundNearestEven sign n).magnitude : ℤ) - n| →
        (F64.roundNearestEven sign n).fraction % 2 = 0)) ∧
    ((2 ^ 54 - 1) * 2 ^ 2044 ≤ n → F64.roundNearestEven sign n = F64.infinity sign) := by
  by_cases hs : n < 2 ^ 53
  · rw [roundNearestEven_small sign n hs]
    have hT : 2 ^ 53 ≤ (2 ^ 54 - 1) * 2 ^ 2044 := threshold_ge _ Nat.one_le_two_pow
    have hm := magnitude_small sign n hs
    constructor
    · intro _
      refine ⟨⟨?_, Nat.mod_lt _ (by positivity)⟩, rfl, ?_, ?_⟩
      · show n / 2 ^ 52 < 2047
        omega
      · intro x _
        rw [hm, sub_self, abs_zero]
        exact abs_nonneg _
      · intro x _ hne he
        rw [hm] at hne he
        rw [sub_self, abs_zero, abs_eq_zero, sub_eq_zero] at he
        exact absurd (by exact_mod_cast he) hne
    · intro h
      exact absurd (lt_of_lt_of_le hs hT) (not_lt.mpr h)
  · have hs1 : 2 ^ 53 ≤ n := not_lt.mp hs
    obtain ⟨shift, q, r, q1, hsh, hlo, hhi, hn, hr, hq1, hq2, hq, hround⟩ :=
      roundNearestEven_large sign n hs1
    have hov := overflow_iff shift q r q1 n hlo hhi hn hr hq1 hq2 hq
    rw [hround]
    constructor
    · intro hlt
      have hno : ¬ 2047 ≤ shift + q1 / 2 ^ 52 := fun h => absurd (hov.mp h) (not_le.mpr hlt)
      rw [if_neg hno]
      have hq1b : 2 ^ 52 ≤ q1 ∧ q1 ≤ 2 ^ 53 := by
        rcases hq with ⟨h, _⟩ | ⟨h, _⟩ <;> omega
      have hm := magnitude_encode sign shift q1 hq1b.1 hq1b.2
      have hPh : (2 : ℕ) ^ shift = 2 * 2 ^ (shift - 1) := by
        rw [← pow_succ']
        congr 1
        omega
      have hPhZ : ((2 : ℤ) ^ shift) = 2 * 2 ^ (shift - 1) := by exact_mod_cast hPh
      have hrZ : (r : ℤ) < 2 ^ shift := by exact_mod_cast hr
      have hnZ : (n : ℤ) = (q : ℤ) * 2 ^ shift + r := by exact_mod_cast hn
      have hgapZ : ∀ x : F64, x.finite →
          (x.magnitude : ℤ) ≤ (q : ℤ) * 2 ^ shift ∨
            (q : ℤ) * 2 ^ shift + 2 ^ shift ≤ (x.magnitude : ℤ) := by
        intro x hx
        rcases magnitude_gap x hx shift q hq1 with h | h
        · left
          exact_mod_cast h
        · right
          rw [add_mul, one_mul] at h
          exact_mod_cast h
      refine ⟨⟨not_le.mp hno, Nat.mod_lt _ (by positivity)⟩, rfl, ?_, ?_⟩
      · intro x hx
        rw [hm]
        have core := nearest_core ((q : ℤ) * 2 ^ shift) (2 ^ shift) (2 ^ (shift - 1)) r
          x.magnitude n hPhZ (Int.ofNat_nonneg r) hrZ hnZ (hgapZ x hx)
        rcases hq with ⟨h1, hup⟩ | ⟨h1, hdn⟩
        · subst h1
          have hle : ((2 : ℤ) ^ (shift - 1)) ≤ r := by
            rcases hup with h | ⟨h, _⟩
            · exact_mod_cast le_of_lt h
            · exact_mod_cast le_of_eq h.symm
          have := core.1 hle
          push_cast
          rw [add_mul, one_mul]
          exact this
        · subst h1
          have hle : (r : ℤ) ≤ 2 ^ (shift - 1) := by
            have : r ≤ 2 ^ (shift - 1) := by
              by_contra hc
              exact hdn (Or.inl (not_le.mp hc))
            exact_mod_cast this
          have := core.2 hle
          push_cast
          exact this
      · intro x hx hne he
        rw [hm] at hne he
        show q1 % 2 ^ 52 % 2 = 0
        have core := tie_core ((q : ℤ) * 2 ^ shift) (2 ^ shift) (2 ^ (shift - 1)) r
          x.magnitude n hPhZ (Int.ofNat_nonneg r) hrZ hnZ (hgapZ x hx)
        rcases hq with ⟨h1, hup⟩ | ⟨h1, hdn⟩
        · subst h1
          have hle : ((2 : ℤ) ^ (shift - 1)) ≤ r := by
            rcases hup with h | ⟨h, _⟩
            · exact_mod_cast le_of_lt h
            · exact_mod_cast le_of_eq h.symm
          have hne2 : (x.magnitude : ℤ) ≠ (q : ℤ) * 2 ^ shift + 2 ^ shift := by
            intro h
            apply hne
            have : (x.magnitude : ℤ) = (((q + 1) * 2 ^ shift : ℕ) : ℤ) := by
              push_cast
              rw [add_mul, one_mul]
              exact h
            exact_mod_cast this
          have he2 : |(x.magnitude : ℤ) - n| = |(q : ℤ) * 2 ^ shift + 2 ^ shift - n| := by
            rw [he]
            push_cast
            rw [add_mul, one_mul]
          have hrh : (r : ℤ) = 2 ^ (shift - 1) := core.1 hle hne2 he2
          have hrhN : r = 2 ^ (shift - 1) := by exact_mod_cast hrh
          rcases hup with h | ⟨_, h⟩
          · omega
          · omega
        · subst h1
          have hle : (r : ℤ) ≤ 2 ^ (shift - 1) := by
            have : r ≤ 2 ^ (shift - 1) := by
              by_contra hc
              exact hdn (Or.inl (not_le.mp hc))
            exact_mod_cast this
          have hne2 : (x.magnitude : ℤ) ≠ (q1 : ℤ) * 2 ^ shift := by
            intro h
            apply hne
            exact_mod_cast h
          have he2 : |(x.magnitude : ℤ) - n| = |(q1 : ℤ) * 2 ^ shift - n| := by
            rw [he]
            push_cast
            rfl
          have hrh : (r : ℤ) = 2 ^ (shift - 1) := core.2 hle hne2 he2
          have hrhN : r = 2 ^ (shift - 1) := by exact_mod_cast hrh
          have : ¬ q1 % 2 = 1 := fun h => hdn (Or.inr ⟨hrhN, h⟩)
          omega
    · intro hge
      rw [if_pos (hov.mpr hge)]

theorem add_finite_eq (a b : F64) (ha : a.finite) (hb : b.finite) :
    a + b = if a.scaled + b.scaled = 0 then F64.zero (a.sign && b.sign)
      else F64.roundNearestEven (decide (a.scaled + b.scaled < 0))
        (a.scaled + b.scaled).natAbs := by
  show F64.add a b = _
  have h1 : ¬ 2047 ≤ a.exponent := not_le.mpr ha.1
  have h2 : ¬ 2047 ≤ b.exponent := not_le.mpr hb.1
  simp [F64.add, F64.isNaN, F64.isInf, h1, h2]

theorem threshold_rat :
    ((((2 ^ 54 - 1) * 2 ^ 2044 : ℕ)) : ℚ) = (2 ^ 1024 - 2 ^ 970) * 2 ^ 1074 := by
  have e0 : ((2 ^ 54 - 1 : ℕ) : ℚ) = 2 ^ 54 - 1 := by norm_num
  rw [Nat.cast_mul, e0, Nat.cast_pow, Nat.cast_ofNat, sub_mul, sub_mul, one_mul,
    ← pow_add, ← pow_add, ← pow_add]

theorem scaled_cases (x : F64) :
    x.scaled = (x.magnitude : ℤ) ∨ x.scaled = -(x.magnitude : ℤ) := by
  unfold F64.scaled
  cases x.sign <;> simp

theorem abs_toRat_sub (y : F64) (s : ℤ) :
    |y.toRat - (s : ℚ) / 2 ^ 1074| = ((|y.scaled - s| : ℤ) : ℚ) / 2 ^ 1074 := by
  unfold F64.toRat
  rw [← sub_div, abs_div, abs_of_pos (show (0 : ℚ) < 2 ^ 1074 by positivity), Int.cast_abs,
    Int.cast_sub]

theorem scaled_of_sign (R : F64) (s : ℤ) (hsign : R.sign = decide (s < 0)) :
    (s < 0 ∧ R.scaled = -(R.magnitude : ℤ)) ∨ (0 ≤ s ∧ R.scaled = (R.magnitude : ℤ)) := by
  unfold F64.scaled
  by_cases h : s < 0
  · left
    simp [hsign, h]
  · right
    simp [hsign, h, not_lt.mp h]

theorem int_lift (s n mR mx sR sx : ℤ) (hn : n = |s|) (hmR : 0 ≤ mR) (hmx : 0 ≤ mx)
    (hR : (s < 0 ∧ sR = -mR) ∨ (0 ≤ s ∧ sR = mR)) (hx : sx = mx ∨ sx = -mx)
    (hnear : |mR - n| ≤ |mx - n|) : |sR - s| ≤ |sx - s| := by
  rcases hR with ⟨h0, hR⟩ | ⟨h0, hR⟩ <;> rcases hx with hx | hx <;>
    rcases abs_cases s with ⟨a1, _⟩ | ⟨a1, _⟩ <;>
    rcases abs_cases (mR - n) with ⟨a2, _⟩ | ⟨a2, _⟩ <;>
    rcases abs_cases (mx - n) with ⟨a3, _⟩ | ⟨a3, _⟩ <;>
    rcases abs_cases (sR - s) with ⟨a4, _⟩ | ⟨a4, _⟩ <;>
    rcases abs_cases (sx - s) with ⟨a5, _⟩ | ⟨a5, _⟩ <;> omega

theorem int_tie (s n mR mx sR sx : ℤ) (hn : n = |s|) (hs : s ≠ 0) (hmR : 0 ≤ mR)
    (hmx : 0 ≤ mx)
    (hR : (s < 0 ∧ sR = -mR) ∨ (0 ≤ s ∧ sR = mR)) (hx : sx = mx ∨ sx = -mx)
    (hnear : |mR - n| ≤ |mx - n|) (hne : sx ≠ sR) (he : |sx - s| = |sR - s|) :
    mx ≠ mR ∧ |mx - n| = |mR - n| := by
  rcases hR with ⟨h0, hR⟩ | ⟨h0, hR⟩ <;> rcases hx with hx | hx <;>
    rcases abs_cases s with ⟨a1, _⟩ | ⟨a1, _⟩ <;>
    rcases abs_cases (mR - n) with ⟨a2, _⟩ | ⟨a2, _⟩ <;>
    rcases abs_cases (mx - n) with ⟨a3, _⟩ | ⟨a3, _⟩ <;>
    rcases abs_cases (sR - s) with ⟨a4, _⟩ | ⟨a4, _⟩ <;>
    rcases abs_cases (sx - s) with ⟨a5, _⟩ | ⟨a5, _⟩ <;>
    refine ⟨?_, ?_⟩ <;> omega

theorem threshold_iff (s : ℤ) :
    |(s : ℚ) / 2 ^ 1074| < 2 ^ 1024 - 2 ^ 970 ↔ s.natAbs < (2 ^ 54 - 1) * 2 ^ 2044 := by
  have hD : (0 : ℚ) < 2 ^ 1074 := by positivity
  rw [abs_div, abs_of_pos hD, div_lt_iff₀ hD, ← threshold_rat, ← Int.cast_abs,
    ← Int.cast_natAbs, Nat.cast_lt]

theorem exact_neg_iff (s : ℤ) : (s : ℚ) / 2 ^ 1074 < 0 ↔ s < 0 := by
  have hD : (0 : ℚ) < 2 ^ 1074 := by positivity
  rw [div_lt_iff₀ hD, zero_mul, Int.cast_lt_zero]

theorem toRat_zero (sign : Bool) : (F64.zero sign).toRat = 0 := by
  cases sign <;> simp [F64.toRat, F64.zero, F64.scaled, F64.magnitude]

theorem toRat_eq_of_scaled_eq (x y : F64) (h : x.scaled = y.scaled) : x.toRat = y.toRat := by
  unfold F64.toRat
  rw [h]

theorem add_correctlyRounded (a b : F64) (ha : a.finite) (hb : b.finite) :
    F64.CorrectlyRounded (a.toRat + b.toRat) (a + b) := by
  have hD : (0 : ℚ) < 2 ^ 1074 := by positivity
  have hexact : a.toRat + b.toRat = ((a.scaled + b.scaled : ℤ) : ℚ) / 2 ^ 1074 := by
    unfold F64.toRat
    rw [Int.cast_add, add_div]
  rw [hexact, add_finite_eq a b ha hb]
  generalize a.scaled + b.scaled = s
  by_cases hs : s = 0
  · subst hs
    rw [if_pos rfl]
    constructor
    · intro _
      refine ⟨⟨by show 0 < 2047; norm_num, by show 0 < 2 ^ 52; positivity⟩, ?_, ?_⟩
      · intro x _
        rw [toRat_zero]
        simp
      · intro x _ hne he
        rw [toRat_zero] at hne he
        simp at he
        exact absurd he hne
    · intro h
      exfalso
      have : (2 : ℚ) ^ 970 < 2 ^ 1024 := pow_lt_pow_right₀ (by norm_num) (by norm_num)
      simp at h
      linarith
  · rw [if_neg hs]
    obtain ⟨hfin, hinf⟩ := roundNearestEven_spec (decide (s < 0)) s.natAbs
    have hn : ((s.natAbs : ℕ) : ℤ) = |s| := Int.natCast_natAbs s
    constructor
    · intro hlt
      obtain ⟨h1, h2, h3, h4⟩ := hfin ((threshold_iff s).mp hlt)
      have hsR := scaled_of_sign _ s h2
      refine ⟨h1, ?_, ?_⟩
      · intro x hx
        rw [abs_toRat_sub, abs_toRat_sub, div_le_div_iff_of_pos_right hD, Int.cast_le]
        exact int_lift s s.natAbs _ x.magnitude _ x.scaled hn (Int.ofNat_nonneg _)
          (Int.ofNat_nonneg _) hsR (scaled_cases x) (h3 x hx)
      · intro x hx hne he
        rw [abs_toRat_sub, abs_toRat_sub, div_left_inj' (ne_of_gt hD), Int.cast_inj] at he
        have hne2 : x.scaled ≠ (F64.roundNearestEven (decide (s < 0)) s.natAbs).scaled :=
          fun h => hne (toRat_eq_of_scaled_eq x _ h)
        obtain ⟨t1, t2⟩ := int_tie s s.natAbs _ x.magnitude _ x.scaled hn hs
          (Int.ofNat_nonneg _) (Int.ofNat_nonneg _) hsR (scaled_cases x) (h3 x hx) hne2 he
        exact h4 x hx (by exact_mod_cast t1) t2
    · intro hge
      have hnot : ¬ s.natAbs < (2 ^ 54 - 1) * 2 ^ 2044 :=
        fun h => absurd ((threshold_iff s).mpr h) (not_lt.mpr hge)
      have hR := hinf (Nat.le_of_not_lt hnot)
      have hd : decide (s < 0) = decide ((s : ℚ) / 2 ^ 1074 < 0) :=
        decide_eq_decide.mpr (exact_neg_iff s).symm
      rw [hR, hd]

/-! ## Adder: `Add` of the add stub -/

theorem AddCpp_Add_eq (env : napi_env) (heap : Heap) (args : List JsValue) :
    AddCpp.Add heap ⟨env, args⟩
      = (Napi_Number_DoubleValue env (args.getD 0 JsValue.undefined)).bind fun arg0 =>
        (Napi_Number_DoubleValue env (args.getD 1 JsValue.undefined)).bind fun arg1 =>
        returned (JsValue.number (arg0 + arg1), heap) := rfl

theorem AddCpp_Add_numbers (env : napi_env) (heap : Heap) (a b : F64) (rest : List JsValue) :
    AddCpp.Add heap ⟨env, JsValue.number a :: JsValue.number b :: rest⟩
      = returned (JsValue.number (a + b), heap) := rfl

/-- C8: `Add` converts arguments 0 and 1 unchecked.  For every argument list the call is the
call on the two-element list of its arguments 0 and 1, an absent one read as `undefined`
(no check of the argument count; arguments at index 2 and above never matter); whatever
doubles the two conversions yield, also for values that are not numbers, `Add` returns
their sum (no check of the types); `Add` never aborts, and it raises only when one of the
two conversions does (no error branch of its own). -/
theorem adder_unchecked_conversion (env : napi_env) (heap : Heap) (args : List JsValue) :
    AddCpp.Add heap ⟨env, args⟩
      = AddCpp.Add heap ⟨env, [args.getD 0 JsValue.undefined, args.getD 1 JsValue.undefined]⟩ ∧
    (∀ x y rest, AddCpp.Add heap ⟨env, x :: y :: rest⟩ = AddCpp.Add heap ⟨env, [x, y]⟩) ∧
    (∀ a b, Napi_Number_DoubleValue env (args.getD 0 JsValue.undefined) = returned a →
      Napi_Number_DoubleValue env (args.getD 1 JsValue.undefined) = returned b →
      AddCpp.Add heap ⟨env, args⟩ = returned (JsValue.number (a + b), heap)) ∧
    AddCpp.Add heap ⟨env, args⟩ ≠ aborted ∧
    (AddCpp.Add heap ⟨env, args⟩ = raised ↔
      (Napi_Number_DoubleValue env (args.getD 0 JsValue.undefined) = raised ∨
       Napi_Number_DoubleValue env (args.getD 1 JsValue.undefined) = raised)) := by
  refine ⟨rfl, fun _ _ _ => rfl, ?_, AddCpp_Add_ne_aborted _ _, ?_⟩
  · intro a b ha hb
    rw [AddCpp_Add_eq, ha, hb]
    rfl
  · rw [AddCpp_Add_eq]
    have h0 := Napi_Number_DoubleValue_ne_aborted env (args.getD 0 JsValue.undefined)
    have h1 := Napi_Number_DoubleValue_ne_aborted env (args.getD 1 JsValue.undefined)
    cases hx : Napi_Number_DoubleValue env (args.getD 0 JsValue.undefined) <;>
      cases hy : Napi_Number_DoubleValue env (args.getD 1 JsValue.undefined) <;>
      simp_all

/-- Witness of C8: a string and an object passed to `Add`, with a third argument, in an
environment that converts every non-number to the quiet NaN. -/
theorem adder_unchecked_conversion_witness :
    AddCpp.Add emptyHeap ⟨okEnv, [JsValue.string "2", JsValue.object 1, JsValue.undefined]⟩
      = returned (JsValue.number (F64.qNaN + F64.qNaN), emptyHeap) ∧
    AddCpp.Add emptyHeap ⟨failEnv, [JsValue.number (F64.ofBits 0)]⟩ = raised :=
  ⟨(adder_unchecked_conversion okEnv emptyHeap
      [JsValue.string "2", JsValue.object 1, JsValue.undefined]).2.2.1 _ _ rfl rfl,
   (adder_unchecked_conversion failEnv emptyHeap
      [JsValue.number (F64.ofBits 0)]).2.2.2.2.mpr (Or.inr rfl)⟩

/-- C3: `Add` returns exactly 5 for the inputs (2, 3), exactly 0 for (-1.5, 1.5) and exactly
0 for (0, 0), in every environment and with the heap unchanged.  The doubles are given by
their bit patterns, each shown to denote the number meant. -/
theorem adder_examples (env : napi_env) (heap : Heap) :
    AddCpp.Add heap
        ⟨env, [JsValue.number (F64.ofBits 0x4000000000000000),
               JsValue.number (F64.ofBits 0x4008000000000000)]⟩
      = returned (JsValue.number (F64.ofBits 0x4014000000000000), heap) ∧
    AddCpp.Add heap
        ⟨env, [JsValue.number (F64.ofBits 0xBFF8000000000000),
               JsValue.number (F64.ofBits 0x3FF8000000000000)]⟩
      = returned (JsValue.number (F64.ofBits 0), heap) ∧
    AddCpp.Add heap ⟨env, [JsValue.number (F64.ofBits 0), JsValue.number (F64.ofBits 0)]⟩
      = returned (JsValue.number (F64.ofBits 0), heap) ∧
    (F64.ofBits 0x4000000000000000).toRat = 2 ∧
    (F64.ofBits 0x4008000000000000).toRat = 3 ∧
    (F64.ofBits 0x4014000000000000).toRat = 5 ∧
    (F64.ofBits 0xBFF8000000000000).toRat = -3 / 2 ∧
    (F64.ofBits 0x3FF8000000000000).toRat = 3 / 2 ∧
    (F64.ofBits 0).toRat = 0 := by
  have e1 : F64.ofBits 0x4000000000000000 + F64.ofBits 0x4008000000000000
      = F64.ofBits 0x4014000000000000 := by decide!
  have e2 : F64.ofBits 0xBFF8000000000000 + F64.ofBits 0x3FF8000000000000
      = F64.ofBits 0 := by decide!
  have e3 : F64.ofBits 0 + F64.ofBits 0 = F64.ofBits 0 := by decide!
  refine ⟨?_, ?_, ?_, by decide!, by decide!, by decide!, by decide!, by decide!, by decide!⟩
  · rw [AddCpp_Add_numbers, e1]
  · rw [AddCpp_Add_numbers, e2]
  · rw [AddCpp_Add_numbers, e3]

/-- C2: for every pair of finite doubles `a`, `b` passed as arguments 0 and 1 (whatever
follows them), `Add` returns the number `a + b`, the double-precision sum, and that sum is
the correctly rounded IEEE-754 binary64 value of the exact sum of the two arguments' values
(round to nearest, ties to even, overflow to infinity). -/
theorem adder_returns_double_sum (env : napi_env) (heap : Heap) (a b : F64)
    (rest : List JsValue) (ha : a.finite) (hb : b.finite) :
    AddCpp.Add heap ⟨env, JsValue.number a :: JsValue.number b :: rest⟩
      = returned (JsValue.number (a + b), heap) ∧
    F64.CorrectlyRounded (a.toRat + b.toRat) (a + b) :=
  ⟨AddCpp_Add_numbers env heap a b rest, add_correctlyRounded a b ha hb⟩

/-- Witness of C2: 0.1 + 0.2, whose exact sum is not a double, gives 0.30000000000000004. -/
theorem adder_returns_double_sum_witness :
    (F64.ofBits 0x3FB999999999999A).finite ∧ (F64.ofBits 0x3FC999999999999A).finite ∧
    AddCpp.Add emptyHeap
        ⟨okEnv, [JsValue.number (F64.ofBits 0x3FB999999999999A),
                 JsValue.number (F64.ofBits 0x3FC999999999999A)]⟩
      = returned (JsValue.number (F64.ofBits 0x3FD3333333333334), emptyHeap) ∧
    F64.CorrectlyRounded
      ((F64.ofBits 0x3FB999999999999A).toRat + (F64.ofBits 0x3FC999999999999A).toRat)
      (F64.ofBits 0x3FB999999999999A + F64.ofBits 0x3FC999999999999A) := by
  have e : F64.ofBits 0x3FB999999999999A + F64.ofBits 0x3FC999999999999A
      = F64.ofBits 0x3FD3333333333334 := by decide!
  have h := adder_returns_double_sum okEnv emptyHeap (F64.ofBits 0x3FB999999999999A)
    (F64.ofBits 0x3FC999999999999A) [] (by decide) (by decide)
  refine ⟨by decide, by decide, ?_, h.2⟩
  rw [← e]
  exact h.1

end Bench
